import Mathlib

/-!
# CSRF middleware (hertz-contrib/csrf): token derivation, validation and issuance

A shallow embedding of `csrf.go`, `config.go`, `extractors.go` and
`option.go`.

Modelling conventions.

* A Go `string` is a Lean `String` (the text it holds); its bytes, where the
  code hashes them, are its UTF-8 encoding.
* An `interface{}` value stored in the session or in the request cache is a
  `Val`: a string, or some value of another dynamic type.
* A call gives a `Result`: a value, a panic, or no result when it does not
  finish.
* The handlers a user plugs in (`ErrorFunc`, the rest of the chain reached by
  `c.Next`) are arbitrary functions on the request context that may panic;
  the bypass predicate and the extractor only read the request context.
* The calls the middleware itself makes are recorded, in order, in a list of
  `Call`s next to the resulting state, so that what the middleware did can be
  told apart from what the handlers it invoked did.
-/

namespace Csrf

/-! ## Bytes of a string -/

/-- UTF-8 encoding of one code point, as Go stores it in a string. -/
def utf8EncodeChar (c : Char) : List Nat :=
  let v := c.toNat
  if v < 0x80 then [v]
  else if v < 0x800 then [0xC0 ||| (v >>> 6), 0x80 ||| (v &&& 0x3F)]
  else if v < 0x10000 then
    [0xE0 ||| (v >>> 12), 0x80 ||| ((v >>> 6) &&& 0x3F), 0x80 ||| (v &&& 0x3F)]
  else
    [0xF0 ||| (v >>> 18), 0x80 ||| ((v >>> 12) &&& 0x3F),
     0x80 ||| ((v >>> 6) &&& 0x3F), 0x80 ||| (v &&& 0x3F)]

/-- The bytes of a string, what `io.WriteString` hands to the hash. -/
def stringBytes (s : String) : List Nat :=
  s.data.flatMap utf8EncodeChar

/-! ## SHA-256 (FIPS 180-4), the function behind `crypto/sha256` -/

namespace Sha256

/-- Addition of 32-bit words. -/
def add32 (a b : Nat) : Nat := (a + b) % 2 ^ 32

/-- Rotate a 32-bit word right by `n` bits. -/
def rotr (x n : Nat) : Nat := ((x >>> n) ||| (x <<< (32 - n))) % 2 ^ 32

/-- Bitwise complement of a 32-bit word. -/
def not32 (x : Nat) : Nat := (2 ^ 32 - 1) ^^^ (x % 2 ^ 32)

def ch (x y z : Nat) : Nat := (x &&& y) ^^^ (not32 x &&& z)

def maj (x y z : Nat) : Nat := (x &&& y) ^^^ (x &&& z) ^^^ (y &&& z)

def bigSigma0 (x : Nat) : Nat := rotr x 2 ^^^ rotr x 13 ^^^ rotr x 22

def bigSigma1 (x : Nat) : Nat := rotr x 6 ^^^ rotr x 11 ^^^ rotr x 25

def smallSigma0 (x : Nat) : Nat := rotr x 7 ^^^ rotr x 18 ^^^ (x >>> 3)

def smallSigma1 (x : Nat) : Nat := rotr x 17 ^^^ rotr x 19 ^^^ (x >>> 10)

/-- The 64 round constants. -/
def K : List Nat :=
  [0x428a2f98, 0x71374491, 0xb5c0fbcf, 0xe9b5dba5, 0x3956c25b, 0x59f111f1, 0x923f82a4, 0xab1c5ed5,
   0xd807aa98, 0x12835b01, 0x243185be, 0x550c7dc3, 0x72be5d74, 0x80deb1fe, 0x9bdc06a7, 0xc19bf174,
   0xe49b69c1, 0xefbe4786, 0x0fc19dc6, 0x240ca1cc, 0x2de92c6f, 0x4a7484aa, 0x5cb0a9dc, 0x76f988da,
   0x983e5152, 0xa831c66d, 0xb00327c8, 0xbf597fc7, 0xc6e00bf3, 0xd5a79147, 0x06ca6351, 0x14292967,
   0x27b70a85, 0x2e1b2138, 0x4d2c6dfc, 0x53380d13, 0x650a7354, 0x766a0abb, 0x81c2c92e, 0x92722c85,
   0xa2bfe8a1, 0xa81a664b, 0xc24b8b70, 0xc76c51a3, 0xd192e819, 0xd6990624, 0xf40e3585, 0x106aa070,
   0x19a4c116, 0x1e376c08, 0x2748774c, 0x34b0bcb5, 0x391c0cb3, 0x4ed8aa4a, 0x5b9cca4f, 0x682e6ff3,
   0x748f82ee, 0x78a5636f, 0x84c87814, 0x8cc70208, 0x90befffa, 0xa4506ceb, 0xbef9a3f7, 0xc67178f2]

/-- The eight working words of the hash. -/
structure HashState where
  a : Nat
  b : Nat
  c : Nat
  d : Nat
  e : Nat
  f : Nat
  g : Nat
  h : Nat
deriving DecidableEq, Repr

/-- The initial hash value. -/
def H0 : HashState :=
  { a := 0x6a09e667, b := 0xbb67ae85, c := 0x3c6ef372, d := 0xa54ff53a,
    e := 0x510e527f, f := 0x9b05688c, g := 0x1f83d9ab, h := 0x5be0cd19 }

/-- Message padding: a one bit, zeros up to 56 mod 64 bytes, then the bit
length as a 64-bit big-endian number. -/
def pad (msg : List Nat) : List Nat :=
  let bits := (8 * msg.length) % 2 ^ 64
  msg ++ [0x80] ++ List.replicate ((119 - msg.length % 64) % 64) 0
    ++ (List.range 8).map (fun i => (bits >>> (8 * (7 - i))) % 256)

/-- Big-endian 32-bit words of a block of bytes. -/
def wordsOf : List Nat → List Nat
  | b0 :: b1 :: b2 :: b3 :: rest =>
      ((b0 <<< 24) ||| (b1 <<< 16) ||| (b2 <<< 8) ||| b3) :: wordsOf rest
  | _ => []

/-- The message schedule: the 16 words of the block extended to 64. -/
def schedule (w16 : List Nat) : List Nat :=
  (List.range 48).foldl
    (fun w _ =>
      let n := w.length
      w ++ [add32 (add32 (add32 (smallSigma1 (w.getD (n - 2) 0)) (w.getD (n - 7) 0))
              (smallSigma0 (w.getD (n - 15) 0))) (w.getD (n - 16) 0)])
    w16

/-- One round of the compression function. -/
def round (s : HashState) (kw : Nat × Nat) : HashState :=
  let t1 := add32 (add32 (add32 (add32 s.h (bigSigma1 s.e)) (ch s.e s.f s.g)) kw.1) kw.2
  let t2 := add32 (bigSigma0 s.a) (maj s.a s.b s.c)
  { a := add32 t1 t2, b := s.a, c := s.b, d := s.c,
    e := add32 s.d t1, f := s.e, g := s.f, h := s.g }

/-- The compression function on one 64-byte block. -/
def compress (s : HashState) (block : List Nat) : HashState :=
  let r := (K.zip (schedule (wordsOf block))).foldl round s
  { a := add32 s.a r.a, b := add32 s.b r.b, c := add32 s.c r.c, d := add32 s.d r.d,
    e := add32 s.e r.e, f := add32 s.f r.f, g := add32 s.g r.g, h := add32 s.h r.h }

/-- Feed one byte: buffer it, and compress when a block is full. -/
def feed (st : HashState × List Nat) (byte : Nat) : HashState × List Nat :=
  let buf := st.2 ++ [byte]
  if buf.length = 64 then (compress st.1 buf, []) else (st.1, buf)

/-- The four big-endian bytes of a word. -/
def be32 (x : Nat) : List Nat :=
  [(x >>> 24) % 256, (x >>> 16) % 256, (x >>> 8) % 256, x % 256]

/-- The digest of a hash state, 32 bytes. -/
def digest (s : HashState) : List Nat :=
  be32 s.a ++ be32 s.b ++ be32 s.c ++ be32 s.d ++ be32 s.e ++ be32 s.f ++ be32 s.g ++ be32 s.h

/-- The SHA-256 digest of a byte string: `h.Write(msg); h.Sum(nil)`. -/
def sum (msg : List Nat) : List Nat :=
  digest ((pad msg).foldl feed (H0, [])).1

end Sha256

/-! ## `base64.URLEncoding` -/

/-- The URL-safe alphabet of `encoding/base64`. -/
def encodeURL : List Char :=
  "ABCDEFGHIJKLMNOPQRSTUVWXYZabcdefghijklmnopqrstuvwxyz0123456789-_".data

/-- The alphabet character of a 6-bit value. -/
def encodeChar (i : Nat) : Char := encodeURL.getD (i % 64) 'A'

/-- The function `base64.URLEncoding.EncodeToString`: three bytes give four
characters, and a final group of one or two bytes is padded with `=`. -/
def EncodeToString : List Nat → List Char
  | [] => []
  | [b0] =>
      let val := b0 <<< 16
      [encodeChar (val >>> 18), encodeChar (val >>> 12), '=', '=']
  | [b0, b1] =>
      let val := (b0 <<< 16) ||| (b1 <<< 8)
      [encodeChar (val >>> 18), encodeChar (val >>> 12), encodeChar (val >>> 6), '=']
  | b0 :: b1 :: b2 :: rest =>
      let val := (b0 <<< 16) ||| (b1 <<< 8) ||| b2
      encodeChar (val >>> 18) :: encodeChar (val >>> 12) :: encodeChar (val >>> 6)
        :: encodeChar val :: EncodeToString rest

/-! ## `csrf.go`: token derivation -/

/-- The function `tokenize` of `csrf.go`: generates the token through secret
and salt. -/
def tokenize (secret salt : String) : String :=
  String.mk (EncodeToString (Sha256.sum (stringBytes (salt ++ "-" ++ secret))))

/-! ## `config.go`, `option.go`: constants and errors -/

def csrfSecret : String := "csrfSecret"

def csrfSalt : String := "csrfSalt"

def csrfToken : String := "csrfToken"

def HeaderName : String := "X-CSRF-TOKEN"

def letters : List Char :=
  "abcdefghijklmnopqrstuvwxyzABCDEFGHIJKLMNOPQRSTUVWXYZ0123456789".data

/-- Six bits to represent a letter index. -/
def letterIdBits : Nat := 6

/-- All 1-bits as many as letterIdBits. -/
def letterIdMask : Nat := 1 <<< letterIdBits - 1

def letterIdMax : Nat := 63 / letterIdBits

/-- An `error` value, identified by its message (`errors.New`). -/
structure Error where
  msg : String
deriving DecidableEq, Repr

def errMissingHeader : Error := ⟨"[CSRF] missing csrf token in header"⟩

def errMissingQuery : Error := ⟨"[CSRF] missing csrf token in query"⟩

def errMissingParam : Error := ⟨"[CSRF] missing csrf token in param"⟩

def errMissingForm : Error := ⟨"[CSRF] missing csrf token in form"⟩

def errMissingSalt : Error := ⟨"[CSRF] missing salt"⟩

def errInvalidToken : Error := ⟨"[CSRF] invalid token"⟩

/-- The error `configDefault` panics with on a malformed lookup string. -/
def errKeyLookup : Error := ⟨"[CSRF] KeyLookup must in the form of <source>:<key>"⟩

/-! ## The request context and the session -/

/-- A value of type `interface{}`: a string, or a value of another dynamic
type (`nil` included). -/
inductive Val where
  | str (s : String)
  | other (tag : Nat)
deriving DecidableEq, Repr

/-- A `map[string]interface{}`. -/
abbrev Store := List (String × Val)

/-- Read a key of a map: the value, if the key is present. -/
def Store.get (m : Store) (key : String) : Option Val :=
  m.lookup key

/-- Write a key of a map, replacing what the key held. -/
def Store.set (m : Store) (key : String) (v : Val) : Store :=
  (key, v) :: m.filter (fun kv => kv.1 != key)

/-- The session of `hertz-contrib/sessions`: its values, and how many times
it has been saved. -/
structure Session where
  values : Store
  saves : Nat
deriving DecidableEq, Repr

/-- The method `session.Get(key)`, `none` standing for a nil interface. -/
def Session.Get (s : Session) (key : String) : Option Val :=
  s.values.get key

/-- The method `session.Set(key, val)`. -/
def Session.Set (s : Session) (key : String) (v : Val) : Session :=
  { s with values := s.values.set key v }

/-- The method `session.Save()`. -/
def Session.Save (s : Session) : Session :=
  { s with saves := s.saves + 1 }

/-- What a panic carries. -/
inductive Panic where
  /-- A `panic(err)` with an error value; `none` is a nil error. -/
  | value (e : Option Error)
  /-- A call of a nil function value. -/
  | nilFunc
  /-- A `c.MustGet(key)` on a key that does not exist. -/
  | missingKey (key : String)
  /-- A failed type assertion `x.(string)`. -/
  | typeAssertion
  /-- A panic raised by a handler the user plugged in. -/
  | other (msg : String)
deriving DecidableEq, Repr

/-- What a call that may panic, or may not finish, gives. -/
inductive Result (α : Type) where
  | ok (a : α)
  | panic (p : Panic)
  | unfinished

/-- The part of `app.RequestContext` the middleware touches. A field of the
request that is absent reads as the empty string: `Header` is what
`c.GetHeader` returns, `Query` what `c.Query` returns (the query string),
`Param` what `c.Param` returns, `PostArgs` and `MultipartForm` are the values
of the urlencoded body and of the multipart form; `session` is the session
`sessions.Default(c)` returns. -/
structure RequestContext where
  Method : String
  Header : String → String
  Query : String → String
  PostArgs : String → String
  MultipartForm : String → String
  Param : String → String
  Keys : Store
  Errors : List Error
  session : Session

/-- The method `c.FormValue(key)` of hertz: the value is searched in the
query string first, then in the urlencoded body, then in the multipart
form. -/
def RequestContext.FormValue (c : RequestContext) (key : String) : String :=
  if c.Query key ≠ "" then c.Query key
  else if c.PostArgs key ≠ "" then c.PostArgs key
  else c.MultipartForm key

/-- The method `c.Set(key, value)`. -/
def RequestContext.Set (c : RequestContext) (key : String) (v : Val) : RequestContext :=
  { c with Keys := c.Keys.set key v }

/-- The method `c.Get(key)`. -/
def RequestContext.Get (c : RequestContext) (key : String) : Option Val :=
  c.Keys.get key

/-- The method `c.Error(err)`: records the error on the request. -/
def RequestContext.Error (c : RequestContext) (err : Error) : RequestContext :=
  { c with Errors := c.Errors ++ [err] }

/-- The method `c.Errors.Last()`. -/
def RequestContext.Last (c : RequestContext) : Option Csrf.Error :=
  c.Errors.getLast?

/-- An `app.HandlerFunc`: it transforms the request context, or panics, or
does not finish. -/
abbrev HandlerFunc := RequestContext → Result RequestContext

/-- The bypass predicate. -/
abbrev CsrfNextHandler := RequestContext → Bool

/-- An extractor: the token and the error it returns. -/
abbrev CsrfExtractorHandler := RequestContext → String × Option Error

/-- Calling a function value that may be nil. -/
def callHandler (f : Option HandlerFunc) (c : RequestContext) : Result RequestContext :=
  match f with
  | none => .panic .nilFunc
  | some g => g c

/-! ## `extractors.go` -/

/-- The extractor `FromParam`: the token from the url param string. -/
def FromParam (param : String) : CsrfExtractorHandler := fun c =>
  let token := c.Param param
  if token = "" then ("", some errMissingParam) else (token, none)

/-- The extractor `FromForm`: the token `c.FormValue(param)` returns. -/
def FromForm (param : String) : CsrfExtractorHandler := fun c =>
  let token := c.FormValue param
  if token = "" then ("", some errMissingForm) else (token, none)

/-- The extractor `FromHeader`: the token from the request header. -/
def FromHeader (param : String) : CsrfExtractorHandler := fun c =>
  let token := c.Header param
  if token = "" then ("", some errMissingHeader) else (token, none)

/-- The extractor `FromQuery`: the token from the query string. -/
def FromQuery (param : String) : CsrfExtractorHandler := fun c =>
  let token := c.Query param
  if token = "" then ("", some errMissingQuery) else (token, none)

/-! ## `config.go` -/

/-- The config for the middleware. A nil slice and a nil function value are
`none`. -/
structure Config where
  Secret : String
  IgnoreMethods : Option (List String)
  Next : Option CsrfNextHandler
  KeyLookup : String
  ErrorFunc : Option HandlerFunc
  Extractor : Option CsrfExtractorHandler

/-- The default config. -/
def ConfigDefault : Config :=
  { Secret := "secret"
    IgnoreMethods := some ["GET", "HEAD", "OPTIONS", "TRACE"]
    Next := none
    KeyLookup := "header:" ++ HeaderName
    ErrorFunc := none
    Extractor := some (FromHeader HeaderName) }

/-- The pieces of a list of characters between the occurrences of `sep`. -/
def splitChars (sep : Char) : List Char → List (List Char)
  | [] => [[]]
  | c :: cs =>
      if c = sep then [] :: splitChars sep cs
      else
        match splitChars sep cs with
        | [] => [[c]]
        | w :: ws => (c :: w) :: ws

/-- The function `strings.Split(s, sep)` for a separator of one character. -/
def Split (s : String) (sep : Char) : List String :=
  (splitChars sep s.data).map String.mk

/-- The bytes `net/textproto` accepts in a header field name: letters,
digits and the token punctuation of RFC 7230. -/
def validHeaderFieldByte (c : Char) : Bool :=
  let n := c.toNat
  (48 ≤ n && n ≤ 57) || (65 ≤ n && n ≤ 90) || (97 ≤ n && n ≤ 122)
    || [33, 35, 36, 37, 38, 39, 42, 43, 45, 46, 94, 95, 96, 124, 126].contains n

/-- Upper case for the first letter and for a letter after a dash, lower case
for every other letter. -/
def canonicalChars : Bool → List Char → List Char
  | _, [] => []
  | upper, c :: cs =>
      let c1 :=
        if upper && (97 ≤ c.toNat && c.toNat ≤ 122) then Char.ofNat (c.toNat - 32)
        else if !upper && (65 ≤ c.toNat && c.toNat ≤ 90) then Char.ofNat (c.toNat + 32)
        else c
      c1 :: canonicalChars (c1 == '-') cs

/-- The function `textproto.CanonicalMIMEHeaderKey`: a key holding a byte
that is not valid in a header field name is returned unchanged. -/
def CanonicalMIMEHeaderKey (s : String) : String :=
  if s.data.all validHeaderFieldByte then String.mk (canonicalChars true s.data) else s

/-- The default error handler of `configDefault`: `panic(c.Errors.Last())`. -/
def defaultErrorFunc : HandlerFunc := fun c =>
  .panic (.value c.Last)

/-- The block `Set default values` of `configDefault`: every field that is
unset takes its default; the extractor is left as given. -/
def setDefaults (cfg : Config) : Config :=
  { Secret := if cfg.Secret = "" then ConfigDefault.Secret else cfg.Secret
    IgnoreMethods :=
      if cfg.IgnoreMethods.isNone then ConfigDefault.IgnoreMethods else cfg.IgnoreMethods
    Next := if cfg.Next.isNone then ConfigDefault.Next else cfg.Next
    KeyLookup := if cfg.KeyLookup = "" then ConfigDefault.KeyLookup else cfg.KeyLookup
    ErrorFunc := if cfg.ErrorFunc.isNone then some defaultErrorFunc else cfg.ErrorFunc
    Extractor := cfg.Extractor }

/-- The extractor `configDefault` builds from the two parts of the lookup
string: from a header by default, then the `switch` on the source. -/
def lookupExtractor (source key : String) : CsrfExtractorHandler :=
  if source = "form" then FromForm key
  else if source = "query" then FromQuery key
  else if source = "param" then FromParam key
  else FromHeader (CanonicalMIMEHeaderKey key)

/-- The function `configDefault`: the default config when none is given,
otherwise the first config with its unset fields filled in. It panics on a
lookup string that does not split into two parts. -/
def configDefault (config : List Config) : Result Config :=
  match config with
  | [] => .ok ConfigDefault
  | cfg :: _ =>
    let cfg := setDefaults cfg
    match Split cfg.KeyLookup ':' with
    | [source, key] =>
      if cfg.Extractor.isNone then
        .ok { cfg with Extractor := some (lookupExtractor source key) }
      else .ok cfg
    | _ => .panic (.value (some errKeyLookup))

/-! ## `csrf.go`: the middleware -/

/-- The calls the middleware makes, in the order it makes them. -/
inductive Call where
  /-- The bypass predicate: `cfg.Next(ctx, c)`. -/
  | bypass
  /-- The session is fetched: `sessions.Default(c)`. -/
  | sessionDefault
  /-- A write to the request cache: `c.Set(key, value)`. -/
  | set (key : String) (v : Val)
  /-- A read of the session: `session.Get(key)`. -/
  | sessionGet (key : String)
  /-- The extractor: `cfg.Extractor(ctx, c)`. -/
  | extractor
  /-- An error is recorded on the request: `c.Error(err)`. -/
  | error (err : Error)
  /-- The failure handler: `cfg.ErrorFunc(ctx, c)`, with `c.Errors.Last()`
  as it is when the handler is entered. -/
  | errorFunc (last : Option Error)
  /-- The downstream handler: `c.Next(ctx)`. -/
  | next
deriving DecidableEq, Repr

/-- One run of the middleware: the calls it made, and the state the last
handler it invoked left (or the panic that ended the run). -/
structure Run where
  calls : List Call
  result : Result RequestContext

/-- The panic that ended the run, if one did. -/
def Run.panicked (r : Run) : Option Panic :=
  match r.result with
  | .panic p => some p
  | _ => none

/-- How many times the run forwarded to the downstream handler. -/
def Run.nextCount (r : Run) : Nat :=
  r.calls.count Call.next

/-- How many times the run invoked the failure handler. -/
def Run.errorFuncCount (r : Run) : Nat :=
  r.calls.countP (fun k => match k with | Call.errorFunc _ => true | _ => false)

/-- The function `isIgnored`: determines whether the method is ignored. -/
def isIgnored : List String → String → Bool
  | [], _ => false
  | v :: arr, value => if v = value then true else isIgnored arr value

/-- The body of the handler after the bypass test, from
`session := sessions.Default(c)` on; `log` holds the calls made so far. -/
def validate (cfg : Config) (next : HandlerFunc) (c : RequestContext) (log : List Call) : Run :=
  let session := c.session
  let c := c.Set csrfSecret (.str cfg.Secret)
  let log := log ++ [.sessionDefault, .set csrfSecret (.str cfg.Secret)]
  if isIgnored (cfg.IgnoreMethods.getD []) c.Method then
    { calls := log ++ [.next], result := next c }
  else
    let log := log ++ [.sessionGet csrfSalt]
    match session.Get csrfSalt with
    | some (.str salt) =>
      if salt.length = 0 then
        { calls := log ++ [.errorFunc c.Last], result := callHandler cfg.ErrorFunc c }
      else
        match cfg.Extractor with
        | none => { calls := log ++ [.extractor], result := .panic .nilFunc }
        | some extract =>
          match extract c with
          | (_, some err) =>
            let c := c.Error err
            { calls := log ++ [.extractor, .error err, .errorFunc c.Last],
              result := callHandler cfg.ErrorFunc c }
          | (token, none) =>
            if tokenize cfg.Secret salt != token then
              { calls := log ++ [.extractor, .errorFunc c.Last],
                result := callHandler cfg.ErrorFunc c }
            else
              { calls := log ++ [.extractor, .next], result := next c }
    | _ => { calls := log ++ [.errorFunc c.Last], result := callHandler cfg.ErrorFunc c }

/-- The test `cfg.Next != nil && cfg.Next(ctx, c)`. -/
def bypassed (cfg : Config) (c : RequestContext) : Bool :=
  match cfg.Next with
  | some skip => skip c
  | none => false

/-- The calls made by the time the bypass test has failed. -/
def bypassLog (cfg : Config) : List Call :=
  match cfg.Next with
  | some _ => [.bypass]
  | none => []

/-- The handler `New` returns, for the resolved config `cfg`; `next` is the
rest of the chain, what `c.Next(ctx)` runs. -/
def handler (cfg : Config) (next : HandlerFunc) (c : RequestContext) : Run :=
  match cfg.Next with
  | some skip =>
    if skip c then { calls := [.bypass, .next], result := next c }
    else validate cfg next c [.bypass]
  | none => validate cfg next c []

/-- The function `New`: resolves the config, then returns the handler. -/
def New (config : List Config) : Result (HandlerFunc → RequestContext → Run) :=
  match configDefault config with
  | .ok cfg => .ok (handler cfg)
  | .panic p => .panic p
  | .unfinished => .unfinished

/-! ## `csrf.go`: the salt and token issuance -/

/-- The random source `src`: the values its successive `Int63()` calls
return, and how many have been drawn. -/
structure RandSource where
  stream : Nat → Nat
  pos : Nat

/-- The method `src.Int63()`: a non-negative 63-bit value, and the source
after the draw. -/
def RandSource.Int63 (s : RandSource) : Nat × RandSource :=
  (s.stream s.pos % 2 ^ 63, { s with pos := s.pos + 1 })

/-- The loop of `randStr`, one iteration for each unit of `fuel`; `none`
when the loop has not finished within `fuel` iterations. -/
def randStrLoop : Nat → RandSource → Int → Nat → Nat → List Char →
    Option (List Char × RandSource)
  | fuel, src, i, cache, remain, sb =>
    if 0 ≤ i then
      match fuel with
      | 0 => none
      | fuel + 1 =>
        let cache1 := if remain = 0 then src.Int63.1 else cache
        let remain1 := if remain = 0 then letterIdMax else remain
        let src1 := if remain = 0 then src.Int63.2 else src
        let idx := cache1 &&& letterIdMask
        if h : idx < letters.length then
          randStrLoop fuel src1 (i - 1) (cache1 >>> letterIdBits) (remain1 - 1)
            (sb ++ [letters[idx]])
        else
          randStrLoop fuel src1 i (cache1 >>> letterIdBits) (remain1 - 1) sb
    else some (sb, src)

/-- The function `randStr`: generates a random string of `n` letters. -/
def randStr (fuel : Nat) (n : Nat) (src : RandSource) : Option (String × RandSource) :=
  match randStrLoop fuel src.Int63.2 ((n : Int) - 1) src.Int63.1 letterIdMax [] with
  | none => none
  | some (sb, src1) => some (String.mk sb, src1)

/-- The function `GetToken`: returns a CSRF token, with the request context
and the random source as the call leaves them. -/
def GetToken (fuel : Nat) (c : RequestContext) (src : RandSource) :
    Result (String × RequestContext × RandSource) :=
  match c.Get csrfSecret with
  | none => .panic (.missingKey csrfSecret)
  | some (.other _) => .panic .typeAssertion
  | some (.str secret) =>
    match c.Get csrfToken with
    | some (.str t) => .ok (t, c, src)
    | some (.other _) => .panic .typeAssertion
    | none =>
      match c.session.Get csrfSalt with
      | some (.str salt) =>
        let token := tokenize secret salt
        .ok (token, c.Set csrfToken (.str token), src)
      | _ =>
        match randStr fuel 16 src with
        | none => .unfinished
        | some (salt, src1) =>
          let session := (c.session.Set csrfSalt (.str salt)).Save
          let token := tokenize secret salt
          .ok (token, ({ c with session := session }).Set csrfToken (.str token), src1)

/-- A downstream handler that calls `GetToken` and drops the token, as the
handlers of `csrf_test.go` do. -/
def issueToken (fuel : Nat) (src : RandSource) : HandlerFunc := fun c =>
  match GetToken fuel c src with
  | .ok (_, c1, _) => .ok c1
  | .panic p => .panic p
  | .unfinished => .unfinished

/-- The request cache holds no token, or the token of the salt the session
holds: the state every call of `GetToken` in the request leaves. -/
def tokenCacheOk (secret : String) (c : RequestContext) : Bool :=
  match c.Get csrfToken with
  | none => true
  | some v =>
    match c.session.Get csrfSalt with
    | some (.str salt) => v == .str (tokenize secret salt)
    | _ => false

/-! ## Example inputs -/

/-- The zero value `Config{}`. -/
def emptyConfig : Config :=
  { Secret := "", IgnoreMethods := none, Next := none, KeyLookup := "",
    ErrorFunc := none, Extractor := none }

/-- The config `configDefault` resolves `Config{}` to. -/
def resolvedConfig : Config :=
  { Secret := "secret"
    IgnoreMethods := some ["GET", "HEAD", "OPTIONS", "TRACE"]
    Next := none
    KeyLookup := "header:X-CSRF-TOKEN"
    ErrorFunc := some defaultErrorFunc
    Extractor := some (FromHeader "X-Csrf-Token") }

/-- A config whose bypass predicate skips every PUT request. -/
def bypassConfig : Config :=
  { resolvedConfig with Next := some (fun c => c.Method == "PUT") }

/-- A POST request with no field set, an empty cache and an empty session. -/
def postRequest : RequestContext :=
  { Method := "POST", Header := fun _ => "", Query := fun _ => "", PostArgs := fun _ => "",
    MultipartForm := fun _ => "", Param := fun _ => "", Keys := [], Errors := [],
    session := { values := [], saves := 0 } }

/-- A session that holds the salt "abcdefghijklmnop". -/
def sessionWithSalt : Session :=
  { values := [(csrfSalt, .str "abcdefghijklmnop")], saves := 1 }

/-- A POST request on `sessionWithSalt` that presents, in the header, the
token of that salt under the secret "secret". -/
def validRequest : RequestContext :=
  { postRequest with
    Header := fun k =>
      if k = "X-Csrf-Token" then "X6_yIhaumFmkEIWcevpYUC-_R_slV9ZU8qNnbrF6qhg=" else ""
    session := sessionWithSalt }

/-- The request `validRequest` with the first character of the token changed. -/
def tamperedRequest : RequestContext :=
  { postRequest with
    Header := fun k =>
      if k = "X-Csrf-Token" then "Y6_yIhaumFmkEIWcevpYUC-_R_slV9ZU8qNnbrF6qhg=" else ""
    session := sessionWithSalt }

/-- A random source; its first two draws give the letters "V38QjEwrJeMv0ib8". -/
def exampleSource : RandSource :=
  { stream := fun n => 0x123456789abcdef + n * 0x7777777777, pos := 0 }

/-- A GET request on an empty session, after the middleware attached the
secret "secret". -/
def issuingRequest : RequestContext :=
  ({ postRequest with Method := "GET" }).Set csrfSecret (.str "secret")

/-- The request `issuingRequest` as `GetToken` leaves it on `exampleSource`:
the new salt saved in the session, the token in the request cache. -/
def issuedRequest : RequestContext :=
  ({ issuingRequest with
      session := { values := [(csrfSalt, .str "V38QjEwrJeMv0ib8")], saves := 1 } }).Set
    csrfToken (.str (tokenize "secret" "V38QjEwrJeMv0ib8"))

/-- A later POST request on the session of `issuedRequest`, with the issued
token in the header. -/
def returningRequest : RequestContext :=
  { postRequest with
    Header := fun k =>
      if k = "X-Csrf-Token" then tokenize "secret" "V38QjEwrJeMv0ib8" else ""
    session := { values := [(csrfSalt, .str "V38QjEwrJeMv0ib8")], saves := 1 } }

/-- A POST request on `sessionWithSalt` that presents no token. -/
def tokenlessRequest : RequestContext :=
  { postRequest with session := sessionWithSalt }

/-- A config with the secret and the extractor of `TestExtractor`. -/
def overrideConfig : Config :=
  { emptyConfig with
    Secret := "secret123"
    KeyLookup := "query:unused"
    Extractor := some (fun c => (c.FormValue "token getter", none)) }

/-- A POST request on `sessionWithSalt` that presents the token of that salt
under the secret "secret123" in the field "token getter" of its urlencoded
body. -/
def overrideRequest : RequestContext :=
  { postRequest with
    PostArgs := fun k =>
      if k = "token getter" then tokenize "secret123" "abcdefghijklmnop" else ""
    session := sessionWithSalt }

/-- The request `issuingRequest` on `sessionWithSalt`. -/
def reissuingRequest : RequestContext :=
  { issuingRequest with session := sessionWithSalt }

/-- A random source whose every draw is 63: the first chunk of a draw is the
index 63, the other nine are the index 0. -/
def discardSource : RandSource :=
  { stream := fun _ => 63, pos := 0 }

/-- The request `issuingRequest` on a session that holds the empty string as
its salt. -/
def emptySaltRequest : RequestContext :=
  { issuingRequest with session := { values := [(csrfSalt, .str "")], saves := 1 } }

/-- A POST request with an empty body whose query string holds
`_csrf=fromquery`. -/
def queryOnlyRequest : RequestContext :=
  { postRequest with Query := fun k => if k = "_csrf" then "fromquery" else "" }

/-! ## `option.go` -/

def csrfHeaderName : String := "X-CSRF-TOKEN"

/-- The options of `option.go`. A nil slice and a nil function value are
`none`. -/
structure Options where
  Secret : String
  IgnoreMethods : Option (List String)
  Next : Option CsrfNextHandler
  KeyLookup : String
  ErrorFunc : Option HandlerFunc
  Extractor : Option CsrfExtractorHandler

/-- The type `Option` of `option.go`, the only struct that can be used to set
options: `F` is given the options and leaves them changed. -/
structure CsrfOption where
  F : Options → Options

/-- The method `Apply`: every option of the list is run on the options, from
the first to the last. -/
def Options.Apply : Options → List CsrfOption → Options
  | o, [] => o
  | o, op :: opts => Options.Apply (op.F o) opts

/-- The default options. -/
def OptionsDefault : Options :=
  { Secret := csrfSecret
    IgnoreMethods := some ["GET", "HEAD", "OPTIONS", "TRACE"]
    Next := none
    KeyLookup := "header:" ++ csrfHeaderName
    ErrorFunc := some defaultErrorFunc
    Extractor := none }

/-- The function `NewOptions`: the defaults, with the options applied. -/
def NewOptions (opts : List CsrfOption) : Options :=
  Options.Apply
    { Secret := OptionsDefault.Secret
      IgnoreMethods := OptionsDefault.IgnoreMethods
      Next := OptionsDefault.Next
      KeyLookup := OptionsDefault.KeyLookup
      ErrorFunc := OptionsDefault.ErrorFunc
      Extractor := none }
    opts

/-- The option `WithSecret`: sets secret. -/
def WithSecret (secret : String) : CsrfOption :=
  { F := fun o => { o with Secret := secret } }

/-- The option `WithIgnoredMethods`: sets methods that do not need to be
protected. -/
def WithIgnoredMethods (methods : Option (List String)) : CsrfOption :=
  { F := fun o => { o with IgnoreMethods := methods } }

/-- The option `WithNext`: sets whether to skip this middleware. -/
def WithNext (f : Option CsrfNextHandler) : CsrfOption :=
  { F := fun o => { o with Next := f } }

/-- The option `WithKeyLookUp`: sets the lookup string. -/
def WithKeyLookUp (lookup : String) : CsrfOption :=
  { F := fun o => { o with KeyLookup := lookup } }

/-- The option `WithErrorFunc`: sets ErrorFunc. -/
def WithErrorFunc (f : Option HandlerFunc) : CsrfOption :=
  { F := fun o => { o with ErrorFunc := f } }

/-- The option `WithExtractor`: sets extractor. -/
def WithExtractor (f : Option CsrfExtractorHandler) : CsrfOption :=
  { F := fun o => { o with Extractor := f } }

/-! ## Notions the claims are stated with -/

/-- The lookup string `configDefault` parses for a config: the one the config
holds or, when that is empty, the default. -/
def lookupOf (cfg : Config) : String :=
  if cfg.KeyLookup = "" then ConfigDefault.KeyLookup else cfg.KeyLookup

/-- The characters A-Z, a-z, 0-9, `-` and `_`. -/
def isURLSafe (ch : Char) : Bool :=
  ('A' ≤ ch && ch ≤ 'Z') || ('a' ≤ ch && ch ≤ 'z') || ('0' ≤ ch && ch ≤ '9')
    || ch == '-' || ch == '_'

/-! ## Token derivation: lemmas -/

theorem Sha256.sum_length (msg : List Nat) : (Sha256.sum msg).length = 32 := by
  simp [Sha256.sum, Sha256.digest, Sha256.be32]

theorem EncodeToString_length (l : List Nat) :
    (EncodeToString l).length = 4 * ((l.length + 2) / 3) := by
  induction l using EncodeToString.induct with
  | case1 => simp [EncodeToString]
  | case2 b0 => simp [EncodeToString]
  | case3 b0 b1 => simp [EncodeToString]
  | case4 b0 b1 b2 rest ih =>
    simp only [EncodeToString, List.length_cons, ih]
    omega

theorem stringBytes_append (a b : String) :
    stringBytes (a ++ b) = stringBytes a ++ stringBytes b := by
  simp [stringBytes, String.data_append]

/-- A token has 44 characters. -/
theorem length_tokenize (secret salt : String) : (tokenize secret salt).length = 44 := by
  simp [tokenize, String.length, EncodeToString_length, Sha256.sum_length]

/-- SHA-256 of "abc", the first test vector of FIPS 180-4. -/
theorem Sha256.sum_abc :
    Sha256.sum (stringBytes "abc") =
      [0xba, 0x78, 0x16, 0xbf, 0x8f, 0x01, 0xcf, 0xea, 0x41, 0x41, 0x40, 0xde, 0x5d, 0xae,
       0x22, 0x23, 0xb0, 0x03, 0x61, 0xa3, 0x96, 0x17, 0x7a, 0x9c, 0xb4, 0x10, 0xff, 0x61,
       0xf2, 0x00, 0x15, 0xad] := by
  decide!

/-- The token of the secret "secret" and the salt "abcdefghijklmnop". -/
theorem tokenize_example :
    tokenize "secret" "abcdefghijklmnop" = "X6_yIhaumFmkEIWcevpYUC-_R_slV9ZU8qNnbrF6qhg=" := by
  decide!

/-! ## Token derivation: claims -/

/-- C3. Token derivation: `tokenize secret salt` is the URL-safe base64
encoding of the SHA-256 digest of the bytes of the salt, then one hyphen (byte
45), then the bytes of the secret; and it is a function of the pair: equal
secrets and equal salts give the identical token. -/
theorem tokenize_derivation (secret salt secret2 salt2 : String)
    (hsecret : secret2 = secret) (hsalt : salt2 = salt) :
    tokenize secret salt =
        String.mk (EncodeToString (Sha256.sum (stringBytes salt ++ [45] ++ stringBytes secret)))
      ∧ tokenize secret2 salt2 = tokenize secret salt := by
  subst hsecret hsalt
  refine ⟨?_, rfl⟩
  simp only [tokenize, stringBytes_append]
  rfl

/-- The derivation at the secret "secret" and the salt "abcdefghijklmnop". -/
theorem tokenize_derivation_witness :
    ("secret" = "secret" ∧ "abcdefghijklmnop" = "abcdefghijklmnop") ∧
    (tokenize "secret" "abcdefghijklmnop" =
        String.mk (EncodeToString (Sha256.sum
          (stringBytes "abcdefghijklmnop" ++ [45] ++ stringBytes "secret")))
      ∧ tokenize "secret" "abcdefghijklmnop" = tokenize "secret" "abcdefghijklmnop") :=
  ⟨⟨rfl, rfl⟩, tokenize_derivation "secret" "abcdefghijklmnop" "secret" "abcdefghijklmnop" rfl rfl⟩

/-- C10. Fixed token length: for every secret and every salt, of any length,
the token is a string of exactly 44 characters. -/
theorem tokenize_length (secret salt : String) : (tokenize secret salt).length = 44 :=
  length_tokenize secret salt

/-! ## The middleware: lemmas -/

theorem isIgnored_eq_true_iff (arr : List String) (value : String) :
    isIgnored arr value = true ↔ value ∈ arr := by
  induction arr with
  | nil => simp [isIgnored]
  | cons v arr ih =>
    by_cases h : v = value
    · simp [isIgnored, h]
    · have h2 : ¬ value = v := fun e => h e.symm
      simp [isIgnored, h, h2, ih]

theorem Store.get_set_self (m : Store) (key : String) (v : Val) :
    (m.set key v).get key = some v := by
  simp [Store.set, Store.get, List.lookup]

theorem Store.get_set_of_ne (m : Store) (key key2 : String) (v : Val) (h : key2 ≠ key) :
    (m.set key v).get key2 = m.get key2 := by
  have hb : (key2 == key) = false := by simpa using h
  simp only [Store.set, Store.get, List.lookup, hb]
  induction m with
  | nil => rfl
  | cons kv m ih =>
    obtain ⟨k, w⟩ := kv
    by_cases hk : k = key
    · subst hk
      simp [List.filter, List.lookup, hb, ih]
    · have hk2 : (k != key) = true := by simpa using hk
      simp only [List.filter, hk2, List.lookup]
      rw [ih]

theorem handler_of_not_bypassed (cfg : Config) (next : HandlerFunc) (c : RequestContext)
    (h : bypassed cfg c = false) :
    handler cfg next c = validate cfg next c (bypassLog cfg) := by
  unfold handler bypassed bypassLog at *
  cases hn : cfg.Next with
  | none => simp
  | some skip =>
    rw [hn] at h
    simp only at h
    simp [h]

theorem handler_of_bypassed (cfg : Config) (next : HandlerFunc) (c : RequestContext)
    (h : bypassed cfg c = true) :
    handler cfg next c = { calls := [.bypass, .next], result := next c } := by
  unfold handler bypassed at *
  cases hn : cfg.Next with
  | none => rw [hn] at h; simp at h
  | some skip =>
    rw [hn] at h
    simp only at h
    simp [h]

theorem bypassLog_counts (cfg : Config) :
    (bypassLog cfg).count Call.next = 0 ∧
    (bypassLog cfg).countP (fun k => match k with | Call.errorFunc _ => true | _ => false) = 0 ∧
    Call.extractor ∉ bypassLog cfg ∧ Call.sessionGet csrfSalt ∉ bypassLog cfg := by
  unfold bypassLog
  cases cfg.Next <;> simp

theorem validate_ignored (cfg : Config) (next : HandlerFunc) (c : RequestContext)
    (log : List Call) (h : isIgnored (cfg.IgnoreMethods.getD []) c.Method = true) :
    validate cfg next c log =
      { calls := log ++ [.sessionDefault, .set csrfSecret (.str cfg.Secret)] ++ [.next],
        result := next (c.Set csrfSecret (.str cfg.Secret)) } := by
  have h2 : isIgnored (cfg.IgnoreMethods.getD []) (c.Set csrfSecret (.str cfg.Secret)).Method
      = true := h
  simp [validate, h2]

theorem validate_missing_salt (cfg : Config) (next : HandlerFunc) (c : RequestContext)
    (log : List Call) (h : isIgnored (cfg.IgnoreMethods.getD []) c.Method = false)
    (hsalt : ∀ salt, c.session.Get csrfSalt = some (.str salt) → salt = "") :
    validate cfg next c log =
      { calls := log ++ [.sessionDefault, .set csrfSecret (.str cfg.Secret)]
          ++ [.sessionGet csrfSalt] ++ [.errorFunc c.Last],
        result := callHandler cfg.ErrorFunc (c.Set csrfSecret (.str cfg.Secret)) } := by
  have h2 : isIgnored (cfg.IgnoreMethods.getD []) (c.Set csrfSecret (.str cfg.Secret)).Method
      = false := h
  have hl : (c.Set csrfSecret (.str cfg.Secret)).Last = c.Last := rfl
  unfold validate
  simp only [h2, hl]
  cases hg : c.session.Get csrfSalt with
  | none => simp
  | some v =>
    cases v with
    | other tag => simp
    | str salt =>
      have := hsalt salt hg
      subst this
      simp

theorem validate_with_salt (cfg : Config) (next : HandlerFunc) (c : RequestContext)
    (log : List Call) (salt : String) (extract : CsrfExtractorHandler)
    (h : isIgnored (cfg.IgnoreMethods.getD []) c.Method = false)
    (hsalt : c.session.Get csrfSalt = some (.str salt)) (hne : salt ≠ "")
    (hextractor : cfg.Extractor = some extract) :
    validate cfg next c log =
      match extract (c.Set csrfSecret (.str cfg.Secret)) with
      | (_, some err) =>
        { calls := log ++ [.sessionDefault, .set csrfSecret (.str cfg.Secret)]
            ++ [.sessionGet csrfSalt] ++ [.extractor, .error err, .errorFunc (some err)],
          result := callHandler cfg.ErrorFunc ((c.Set csrfSecret (.str cfg.Secret)).Error err) }
      | (token, none) =>
        if tokenize cfg.Secret salt = token then
          { calls := log ++ [.sessionDefault, .set csrfSecret (.str cfg.Secret)]
              ++ [.sessionGet csrfSalt] ++ [.extractor, .next],
            result := next (c.Set csrfSecret (.str cfg.Secret)) }
        else
          { calls := log ++ [.sessionDefault, .set csrfSecret (.str cfg.Secret)]
              ++ [.sessionGet csrfSalt] ++ [.extractor, .errorFunc c.Last],
            result := callHandler cfg.ErrorFunc (c.Set csrfSecret (.str cfg.Secret)) } := by
  have h2 : isIgnored (cfg.IgnoreMethods.getD []) (c.Set csrfSecret (.str cfg.Secret)).Method
      = false := h
  have hl : (c.Set csrfSecret (.str cfg.Secret)).Last = c.Last := rfl
  have hlen : ¬ salt.length = 0 := by
    intro h0
    apply hne
    cases salt with
    | mk data =>
      have : data = [] := List.length_eq_zero.mp h0
      subst this
      rfl
  unfold validate
  simp only [h2, hl, hsalt, hextractor, hlen]
  rcases hx : extract (c.Set csrfSecret (.str cfg.Secret)) with ⟨token, err⟩
  cases err with
  | some err =>
    simp [RequestContext.Last, RequestContext.Error]
  | none =>
    by_cases ht : tokenize cfg.Secret salt = token
    · simp [ht]
    · simp [ht]

theorem configDefault_extractor (config : List Config) (cfg : Config)
    (h : configDefault config = .ok cfg) : ∃ extract, cfg.Extractor = some extract := by
  cases config with
  | nil =>
    simp only [configDefault, Result.ok.injEq] at h
    subst h
    exact ⟨_, rfl⟩
  | cons cfg0 rest =>
    simp only [configDefault] at h
    split at h
    · split at h
      · cases h; exact ⟨_, rfl⟩
      · rename_i hx
        cases h
        cases he : (setDefaults cfg0).Extractor with
        | none => simp [he] at hx
        | some extract => exact ⟨extract, rfl⟩
    · cases h

/-! ## The middleware: claims -/

theorem FormValue_Set (c : RequestContext) (key2 : String) (v : Val) (key : String) :
    (c.Set key2 v).FormValue key = c.FormValue key := rfl

/-- The decision of the handler on a request that reaches the comparison. -/
theorem validation_decision_core (cfg : Config) (next : HandlerFunc) (c : RequestContext)
    (extract : CsrfExtractorHandler) (salt t : String)
    (hbypass : bypassed cfg c = false)
    (hmethod : isIgnored (cfg.IgnoreMethods.getD []) c.Method = false)
    (hsalt : c.session.Get csrfSalt = some (.str salt)) (hne : salt ≠ "")
    (hextractor : cfg.Extractor = some extract)
    (htoken : extract (c.Set csrfSecret (.str cfg.Secret)) = (t, none)) :
    ((handler cfg next c).nextCount = 1 ↔ t = tokenize cfg.Secret salt) ∧
    (t = tokenize cfg.Secret salt →
      (handler cfg next c).errorFuncCount = 0 ∧
      (handler cfg next c).result = next (c.Set csrfSecret (.str cfg.Secret))) ∧
    (t ≠ tokenize cfg.Secret salt →
      (handler cfg next c).errorFuncCount = 1 ∧ (handler cfg next c).nextCount = 0 ∧
      (handler cfg next c).result
        = callHandler cfg.ErrorFunc (c.Set csrfSecret (.str cfg.Secret))) := by
  obtain ⟨b1, b2, -, -⟩ := bypassLog_counts cfg
  rw [handler_of_not_bypassed cfg next c hbypass,
    validate_with_salt cfg next c _ salt extract hmethod hsalt hne hextractor, htoken]
  by_cases ht : tokenize cfg.Secret salt = t
  · subst ht
    simp [Run.nextCount, Run.errorFuncCount, b1, b2, List.countP_cons]
  · have ht2 : ¬ t = tokenize cfg.Secret salt := fun e => ht e.symm
    simp [ht, ht2, Run.nextCount, Run.errorFuncCount, b1, b2, List.countP_cons]

/-- C1. Validation decision: for a request that is not exempt (bypass
predicate absent or false, method not in the ignored list), whose session
holds a non-empty string salt and for which the configured extractor returns
the token `t` without error, the handler forwards to the downstream handler
if and only if `t` is `tokenize secret salt`; for every other `t` it invokes
the failure handler and does not forward. -/
theorem validation_decision (cfg : Config) (next : HandlerFunc) (c : RequestContext)
    (extract : CsrfExtractorHandler) (salt t : String)
    (hbypass : bypassed cfg c = false)
    (hmethod : isIgnored (cfg.IgnoreMethods.getD []) c.Method = false)
    (hsalt : c.session.Get csrfSalt = some (.str salt)) (hne : salt ≠ "")
    (hextractor : cfg.Extractor = some extract)
    (htoken : extract (c.Set csrfSecret (.str cfg.Secret)) = (t, none)) :
    ((handler cfg next c).nextCount = 1 ↔ t = tokenize cfg.Secret salt) ∧
    (t = tokenize cfg.Secret salt →
      (handler cfg next c).errorFuncCount = 0 ∧
      (handler cfg next c).result = next (c.Set csrfSecret (.str cfg.Secret))) ∧
    (t ≠ tokenize cfg.Secret salt →
      (handler cfg next c).errorFuncCount = 1 ∧ (handler cfg next c).nextCount = 0 ∧
      (handler cfg next c).result
        = callHandler cfg.ErrorFunc (c.Set csrfSecret (.str cfg.Secret))) :=
  validation_decision_core cfg next c extract salt t hbypass hmethod hsalt hne hextractor htoken

/-- C4. Missing salt: for a request that is not exempt and whose session has
no salt (the key is absent, holds a value that is not a string, or holds the
empty string), the handler invokes the failure handler and does not forward,
whatever the request fields hold, and it does not call the extractor. -/
theorem missing_salt_rejects (cfg : Config) (next : HandlerFunc) (c : RequestContext)
    (hbypass : bypassed cfg c = false)
    (hmethod : isIgnored (cfg.IgnoreMethods.getD []) c.Method = false)
    (hnosalt : c.session.Get csrfSalt = none ∨
      (∃ tag, c.session.Get csrfSalt = some (.other tag)) ∨
      c.session.Get csrfSalt = some (.str "")) :
    (handler cfg next c).errorFuncCount = 1 ∧ (handler cfg next c).nextCount = 0 ∧
    Call.extractor ∉ (handler cfg next c).calls ∧
    (handler cfg next c).result
      = callHandler cfg.ErrorFunc (c.Set csrfSecret (.str cfg.Secret)) := by
  obtain ⟨b1, b2, b3, -⟩ := bypassLog_counts cfg
  have hs : ∀ salt, c.session.Get csrfSalt = some (.str salt) → salt = "" := by
    intro salt hg
    rcases hnosalt with h | ⟨tag, h⟩ | h
    · rw [h] at hg; cases hg
    · rw [h] at hg; cases hg
    · rw [h] at hg; cases hg; rfl
  rw [handler_of_not_bypassed cfg next c hbypass,
    validate_missing_salt cfg next c _ hmethod hs]
  simp [Run.nextCount, Run.errorFuncCount, b1, b2, b3, List.countP_cons]

/-- C5. Method exemption is exact string membership: when the bypass
predicate is absent or returns false, the handler skips validation (no read
of the session salt, no call of the extractor or of the failure handler) and
forwards if and only if the request method is an element of the
ignored-methods list; `isIgnored arr v` is true iff `v` occurs in `arr`, so
it is false for the empty list and for "get" under the default list. -/
theorem method_exemption (cfg : Config) (next : HandlerFunc) (c : RequestContext)
    (hbypass : bypassed cfg c = false) :
    (((handler cfg next c).nextCount = 1 ∧ (handler cfg next c).errorFuncCount = 0 ∧
        Call.sessionGet csrfSalt ∉ (handler cfg next c).calls ∧
        Call.extractor ∉ (handler cfg next c).calls)
      ↔ c.Method ∈ cfg.IgnoreMethods.getD []) ∧
    (∀ arr v, isIgnored arr v = true ↔ v ∈ arr) ∧
    (∀ v, isIgnored [] v = false) ∧
    isIgnored ["GET", "HEAD", "OPTIONS", "TRACE"] "get" = false := by
  obtain ⟨b1, b2, b3, b4⟩ := bypassLog_counts cfg
  refine ⟨?_, isIgnored_eq_true_iff, fun v => rfl, by decide⟩
  rw [handler_of_not_bypassed cfg next c hbypass]
  constructor
  · rintro ⟨-, -, hget, -⟩
    rw [← isIgnored_eq_true_iff]
    by_contra hni
    have hni2 : isIgnored (cfg.IgnoreMethods.getD []) c.Method = false := by simpa using hni
    apply hget
    have hm : isIgnored (cfg.IgnoreMethods.getD [])
        (c.Set csrfSecret (.str cfg.Secret)).Method = false := hni2
    unfold validate
    simp only [hm, Bool.false_eq_true, if_false]
    repeat' split
    all_goals simp
  · intro hmem
    rw [validate_ignored cfg next c _ ((isIgnored_eq_true_iff _ _).mpr hmem)]
    simp [Run.nextCount, Run.errorFuncCount, b1, b2, b3, b4, List.countP_cons]

/-- C6. Bypass predicate: when a bypass predicate is configured and returns
true for the request, the handler makes two calls only, the predicate and the
downstream handler, which runs on the request context as it came in: the
session is not read, the extractor and the failure handler are not called,
whatever the method, the session and the request fields are. -/
theorem bypass_forwards (cfg : Config) (next : HandlerFunc) (c : RequestContext)
    (skip : CsrfNextHandler) (hnext : cfg.Next = some skip) (hskip : skip c = true) :
    (handler cfg next c).calls = [.bypass, .next] ∧
    (handler cfg next c).result = next c ∧
    (handler cfg next c).nextCount = 1 ∧ (handler cfg next c).errorFuncCount = 0 := by
  have hb : bypassed cfg c = true := by simp [bypassed, hnext, hskip]
  rw [handler_of_bypassed cfg next c hb]
  simp [Run.nextCount, Run.errorFuncCount, List.countP_cons]

/-- Each run of a handler `New` returns executes exactly one of the two call
statements `c.Next(ctx)` and `cfg.ErrorFunc(ctx, c)`, once. Whether
`cfg.ErrorFunc` holds a function there is another matter: see
`configDefault_errorFunc`. -/
theorem one_of_two_calls (config : List Config) (h : HandlerFunc → RequestContext → Run)
    (hnew : New config = .ok h) (next : HandlerFunc) (c : RequestContext) :
    ((h next c).nextCount = 1 ∧ (h next c).errorFuncCount = 0) ∨
    ((h next c).nextCount = 0 ∧ (h next c).errorFuncCount = 1) := by
  unfold New at hnew
  cases hc : configDefault config with
  | panic p => rw [hc] at hnew; cases hnew
  | unfinished => rw [hc] at hnew; cases hnew
  | ok cfg =>
    rw [hc] at hnew
    cases hnew
    obtain ⟨extract, hextractor⟩ := configDefault_extractor config cfg hc
    obtain ⟨b1, b2, -, -⟩ := bypassLog_counts cfg
    cases hb : bypassed cfg c with
    | true =>
      rw [handler_of_bypassed cfg next c hb]
      left
      simp [Run.nextCount, Run.errorFuncCount, List.countP_cons]
    | false =>
      rw [handler_of_not_bypassed cfg next c hb]
      cases hm : isIgnored (cfg.IgnoreMethods.getD []) c.Method with
      | true =>
        rw [validate_ignored cfg next c _ hm]
        left
        simp [Run.nextCount, Run.errorFuncCount, b1, b2, List.countP_cons]
      | false =>
        by_cases hs : ∃ salt, c.session.Get csrfSalt = some (.str salt) ∧ salt ≠ ""
        · obtain ⟨salt, hsalt, hne⟩ := hs
          rw [validate_with_salt cfg next c _ salt extract hm hsalt hne hextractor]
          rcases hx : extract (c.Set csrfSecret (.str cfg.Secret)) with ⟨token, err⟩
          cases err with
          | some err =>
            right
            simp [Run.nextCount, Run.errorFuncCount, b1, b2, List.countP_cons]
          | none =>
            by_cases ht : tokenize cfg.Secret salt = token
            · left
              simp [ht, Run.nextCount, Run.errorFuncCount, b1, b2, List.countP_cons]
            · right
              simp [ht, Run.nextCount, Run.errorFuncCount, b1, b2, List.countP_cons]
        · have hs2 : ∀ salt, c.session.Get csrfSalt = some (.str salt) → salt = "" := by
            intro salt hg
            by_contra hne
            exact hs ⟨salt, hg, hne⟩
          rw [validate_missing_salt cfg next c _ hm hs2]
          right
          simp [Run.nextCount, Run.errorFuncCount, b1, b2, List.countP_cons]

/-! ## Witnesses of the middleware claims -/

/-- The decision on `validRequest`, which presents the valid token, and on
`tamperedRequest`, which presents it with one character changed. -/
theorem validation_decision_witness :
    (handler resolvedConfig Result.ok validRequest).nextCount = 1 ∧
    (handler resolvedConfig Result.ok validRequest).errorFuncCount = 0 ∧
    (handler resolvedConfig Result.ok tamperedRequest).errorFuncCount = 1 ∧
    (handler resolvedConfig Result.ok tamperedRequest).nextCount = 0 :=
  have hv := validation_decision resolvedConfig Result.ok validRequest
    (FromHeader "X-Csrf-Token") "abcdefghijklmnop"
    "X6_yIhaumFmkEIWcevpYUC-_R_slV9ZU8qNnbrF6qhg="
    (by decide) (by decide) (by decide) (by decide) rfl (by decide)
  have ht := validation_decision resolvedConfig Result.ok tamperedRequest
    (FromHeader "X-Csrf-Token") "abcdefghijklmnop"
    "Y6_yIhaumFmkEIWcevpYUC-_R_slV9ZU8qNnbrF6qhg="
    (by decide) (by decide) (by decide) (by decide) rfl (by decide)
  have hne : "Y6_yIhaumFmkEIWcevpYUC-_R_slV9ZU8qNnbrF6qhg="
      ≠ tokenize resolvedConfig.Secret "abcdefghijklmnop" := by
    rw [show resolvedConfig.Secret = "secret" from rfl, tokenize_example]
    decide
  ⟨hv.1.mpr tokenize_example.symm, (hv.2.1 tokenize_example.symm).1,
    (ht.2.2 hne).1, (ht.2.2 hne).2.1⟩

/-- The rejection of `postRequest`, whose session is empty. -/
theorem missing_salt_rejects_witness :
    (handler resolvedConfig Result.ok postRequest).errorFuncCount = 1 ∧
    (handler resolvedConfig Result.ok postRequest).nextCount = 0 ∧
    Call.extractor ∉ (handler resolvedConfig Result.ok postRequest).calls ∧
    (handler resolvedConfig Result.ok postRequest).result
      = callHandler resolvedConfig.ErrorFunc
          (postRequest.Set csrfSecret (.str resolvedConfig.Secret)) :=
  missing_salt_rejects resolvedConfig Result.ok postRequest (by decide) (by decide)
    (Or.inl (by decide))

/-- The exemption of a GET request under the default ignored methods. -/
theorem method_exemption_witness :
    (((handler resolvedConfig Result.ok { postRequest with Method := "GET" }).nextCount = 1 ∧
        (handler resolvedConfig Result.ok { postRequest with Method := "GET" }).errorFuncCount
          = 0 ∧
        Call.sessionGet csrfSalt ∉
          (handler resolvedConfig Result.ok { postRequest with Method := "GET" }).calls ∧
        Call.extractor ∉
          (handler resolvedConfig Result.ok { postRequest with Method := "GET" }).calls)
      ↔ "GET" ∈ resolvedConfig.IgnoreMethods.getD []) ∧
    (∀ arr v, isIgnored arr v = true ↔ v ∈ arr) ∧
    (∀ v, isIgnored [] v = false) ∧
    isIgnored ["GET", "HEAD", "OPTIONS", "TRACE"] "get" = false :=
  method_exemption resolvedConfig Result.ok { postRequest with Method := "GET" } (by decide)

/-- The bypass of a PUT request under `bypassConfig`. -/
theorem bypass_forwards_witness :
    (handler bypassConfig Result.ok { postRequest with Method := "PUT" }).calls
      = [.bypass, .next] ∧
    (handler bypassConfig Result.ok { postRequest with Method := "PUT" }).result
      = Result.ok { postRequest with Method := "PUT" } ∧
    (handler bypassConfig Result.ok { postRequest with Method := "PUT" }).nextCount = 1 ∧
    (handler bypassConfig Result.ok { postRequest with Method := "PUT" }).errorFuncCount = 0 :=
  bypass_forwards bypassConfig Result.ok { postRequest with Method := "PUT" }
    (fun c => c.Method == "PUT") rfl (by decide)

/-- A config that was supplied is resolved with a failure handler in place. -/
theorem configDefault_errorFunc (cfg : Config) (rest : List Config) (r : Config)
    (h : configDefault (cfg :: rest) = .ok r) : ∃ f, r.ErrorFunc = some f := by
  have hd : ∃ f, (setDefaults cfg).ErrorFunc = some f := by
    cases he : cfg.ErrorFunc with
    | none => exact ⟨defaultErrorFunc, by simp [setDefaults, he]⟩
    | some f => exact ⟨f, by simp [setDefaults, he]⟩
  simp only [configDefault] at h
  split at h
  · split at h
    · cases h
      exact hd
    · cases h
      exact hd
  · cases h

/-- C7, the code at the failing input. `New()` with no config returns the
handler of `ConfigDefault`, whose `ErrorFunc` is nil; on a POST request whose
session has no salt the handler does not forward, and its call of the failure
handler is the call of a nil function: the run ends in that panic, whatever
the downstream handler is, and no failure handler has run. With `Config{}`
supplied the failure handler is in place and it is the one that panics. -/
theorem nil_failure_handler :
    New [] = .ok (handler ConfigDefault) ∧ ConfigDefault.ErrorFunc.isNone = true ∧
    (handler ConfigDefault Result.ok postRequest).nextCount = 0 ∧
    (handler ConfigDefault Result.ok postRequest).panicked = some .nilFunc ∧
    (∀ next : HandlerFunc, (handler ConfigDefault next postRequest).result
      = .panic .nilFunc) ∧
    (New [emptyConfig] = .ok (handler resolvedConfig) ∧
      resolvedConfig.ErrorFunc.isSome = true ∧
      (handler resolvedConfig Result.ok postRequest).panicked = some (.value none)) :=
  ⟨rfl, rfl, by decide, by decide, fun _ => rfl, by rfl, rfl, by decide⟩


/-! ## The salt and token issuance: lemmas -/

theorem randStrLoop_length (fuel : Nat) :
    ∀ (src : RandSource) (i : Int) (cache remain : Nat) (sb out : List Char)
      (src1 : RandSource),
      randStrLoop fuel src i cache remain sb = some (out, src1) → -1 ≤ i →
      (out.length : Int) = sb.length + (i + 1) := by
  induction fuel with
  | zero =>
    intro src i cache remain sb out src1 h hi
    rw [randStrLoop] at h
    split at h
    · cases h
    · simp only [Option.some.injEq, Prod.mk.injEq] at h
      obtain ⟨rfl, -⟩ := h
      omega
  | succ n ih =>
    intro src i cache remain sb out src1 h hi
    rw [randStrLoop] at h
    split at h
    · simp only at h
      have step : ∀ (s : RandSource) (k r : Nat),
          (if hx : k &&& letterIdMask < letters.length then
              randStrLoop n s (i - 1) (k >>> letterIdBits) (r - 1)
                (sb ++ [letters[k &&& letterIdMask]])
            else randStrLoop n s i (k >>> letterIdBits) (r - 1) sb) = some (out, src1) →
          (out.length : Int) = sb.length + (i + 1) := by
        intro s k r hk
        split at hk
        · have := ih _ _ _ _ _ _ _ hk (by omega)
          simp only [List.length_append, List.length_singleton] at this
          push_cast at this
          omega
        · exact ih _ _ _ _ _ _ _ hk hi
      by_cases hr : remain = 0
      · simp only [hr, if_true] at h
        exact step _ _ _ h
      · simp only [hr, if_false] at h
        exact step _ _ _ h
    · simp only [Option.some.injEq, Prod.mk.injEq] at h
      obtain ⟨rfl, -⟩ := h
      omega

theorem randStr_length (fuel n : Nat) (src src1 : RandSource) (s : String)
    (h : randStr fuel n src = some (s, src1)) : s.length = n := by
  unfold randStr at h
  split at h
  · cases h
  · rename_i sb src2 hloop
    simp only [Option.some.injEq, Prod.mk.injEq] at h
    obtain ⟨rfl, -⟩ := h
    have := randStrLoop_length _ _ _ _ _ _ _ _ hloop (by omega)
    simp only [List.length_nil] at this
    show sb.length = n
    omega

theorem randStrLoop_stream (fuel : Nat) :
    ∀ (src : RandSource) (i : Int) (cache remain : Nat) (sb out : List Char)
      (src1 : RandSource),
      randStrLoop fuel src i cache remain sb = some (out, src1) →
      src1.stream = src.stream := by
  induction fuel with
  | zero =>
    intro src i cache remain sb out src1 h
    rw [randStrLoop] at h
    split at h
    · cases h
    · simp only [Option.some.injEq, Prod.mk.injEq] at h
      obtain ⟨-, rfl⟩ := h
      rfl
  | succ n ih =>
    intro src i cache remain sb out src1 h
    rw [randStrLoop] at h
    split at h
    · simp only at h
      have step : ∀ (s : RandSource) (k r : Nat), s.stream = src.stream →
          (if hx : k &&& letterIdMask < letters.length then
              randStrLoop n s (i - 1) (k >>> letterIdBits) (r - 1)
                (sb ++ [letters[k &&& letterIdMask]])
            else randStrLoop n s i (k >>> letterIdBits) (r - 1) sb) = some (out, src1) →
          src1.stream = src.stream := by
        intro s k r hs hk
        split at hk
        · exact (ih _ _ _ _ _ _ _ hk).trans hs
        · exact (ih _ _ _ _ _ _ _ hk).trans hs
      by_cases hr : remain = 0
      · simp only [hr, if_true] at h
        exact step src.Int63.2 _ _ rfl h
      · simp only [hr, if_false] at h
        exact step src _ _ rfl h
    · simp only [Option.some.injEq, Prod.mk.injEq] at h
      obtain ⟨-, rfl⟩ := h
      rfl

theorem randStr_stream (fuel n : Nat) (src src1 : RandSource) (s : String)
    (h : randStr fuel n src = some (s, src1)) : src1.stream = src.stream := by
  unfold randStr at h
  split at h
  · cases h
  · rename_i sb src2 hloop
    simp only [Option.some.injEq, Prod.mk.injEq] at h
    obtain ⟨-, rfl⟩ := h
    exact randStrLoop_stream _ src.Int63.2 _ _ _ _ _ _ hloop

/-- The salt `randStr` draws from `exampleSource`. -/
theorem randStr_exampleSource :
    randStr 100 16 exampleSource
      = some ("V38QjEwrJeMv0ib8", { stream := exampleSource.stream, pos := 2 }) := by
  have h1 : (randStr 100 16 exampleSource).map (fun r => (r.1, r.2.pos))
      = some ("V38QjEwrJeMv0ib8", 2) := by decide!
  cases hr : randStr 100 16 exampleSource with
  | none => rw [hr] at h1; cases h1
  | some r =>
    obtain ⟨s, src1⟩ := r
    have hs := randStr_stream _ _ _ _ _ hr
    rw [hr] at h1
    simp only [Option.map_some', Option.some.injEq, Prod.mk.injEq] at h1
    obtain ⟨rfl, hpos⟩ := h1
    obtain ⟨stream, pos⟩ := src1
    simp only at hs hpos
    subst hs hpos
    rfl

/-- What `GetToken` does on its first call in a request whose session holds
no string salt: it draws a salt, saves it in the session and caches the
token. -/
theorem GetToken_generates (secret salt : String) (fuel : Nat) (c : RequestContext)
    (src src1 : RandSource)
    (hsecret : c.Get csrfSecret = some (.str secret))
    (hcache : c.Get csrfToken = none)
    (hsession : ∀ s, c.session.Get csrfSalt ≠ some (.str s))
    (hrand : randStr fuel 16 src = some (salt, src1)) :
    GetToken fuel c src
      = .ok (tokenize secret salt,
          ({ c with session := (c.session.Set csrfSalt (.str salt)).Save }).Set csrfToken
            (.str (tokenize secret salt)), src1) := by
  unfold GetToken
  simp only [hsecret, hcache, hrand]

theorem ne_empty_of_length_pos (s : String) (h : 0 < s.length) : s ≠ "" := by
  intro e
  subst e
  simp at h

/-- What `GetToken` gives when the secret is attached, the cached token (if
any) is the token of the session salt and the session does not hold the empty
salt: the token of a non-empty salt that the session holds afterwards. -/
theorem GetToken_issues (secret : String) (fuel : Nat) (c c1 : RequestContext)
    (src src1 : RandSource) (t : String)
    (hsecret : c.Get csrfSecret = some (.str secret))
    (hcache : tokenCacheOk secret c = true)
    (hsession : c.session.Get csrfSalt ≠ some (.str ""))
    (hget : GetToken fuel c src = .ok (t, c1, src1)) :
    ∃ salt, salt ≠ "" ∧ c1.session.Get csrfSalt = some (.str salt) ∧
      t = tokenize secret salt := by
  unfold GetToken at hget
  simp only [hsecret] at hget
  unfold tokenCacheOk at hcache
  cases hc : c.Get csrfToken with
  | some v =>
    rw [hc] at hcache hget
    simp only at hcache
    cases hs : c.session.Get csrfSalt with
    | none => rw [hs] at hcache; simp at hcache
    | some w =>
      cases w with
      | other tag => rw [hs] at hcache; simp at hcache
      | str salt =>
        rw [hs] at hcache
        simp only [beq_iff_eq] at hcache
        subst hcache
        simp only [Result.ok.injEq, Prod.mk.injEq] at hget
        obtain ⟨rfl, rfl, -⟩ := hget
        refine ⟨salt, ?_, hs, rfl⟩
        intro e
        subst e
        exact hsession hs
  | none =>
    rw [hc] at hget
    simp only at hget
    split at hget
    · rename_i salt hs
      simp only [Result.ok.injEq, Prod.mk.injEq] at hget
      obtain ⟨rfl, rfl, -⟩ := hget
      refine ⟨salt, ?_, hs, rfl⟩
      intro e
      subst e
      exact hsession hs
    · split at hget
      · cases hget
      · rename_i salt src2 hr
        simp only [Result.ok.injEq, Prod.mk.injEq] at hget
        obtain ⟨rfl, rfl, -⟩ := hget
        refine ⟨salt, ?_, ?_, rfl⟩
        · apply ne_empty_of_length_pos
          rw [randStr_length _ _ _ _ _ hr]
          decide
        · simp [RequestContext.Set, Session.Get, Session.Save, Session.Set,
            Store.get_set_self]

/-! ## The salt and token issuance: claims -/

/-- C2. Issue/validate round trip: when `GetToken`, run in a request where
the secret is attached, on a session that has no salt or holds a non-empty
string salt, returns the token `t` and leaves the session of `c1`, then a
later request that is not exempt, carries that session and presents `t`
through the configured source (header, form value, query parameter or path
parameter: what the accessor of that source returns) is forwarded by the handler built with the same secret, and the
failure handler is not invoked. -/
theorem issue_validate_round_trip (secret : String) (fuel : Nat) (c c1 : RequestContext)
    (src src1 : RandSource) (t : String)
    (cfg : Config) (next : HandlerFunc) (c2 : RequestContext) (key : String)
    (hsecret : c.Get csrfSecret = some (.str secret))
    (hcache : tokenCacheOk secret c = true)
    (hsession : c.session.Get csrfSalt ≠ some (.str ""))
    (hget : GetToken fuel c src = .ok (t, c1, src1))
    (hcfg : cfg.Secret = secret)
    (hbypass : bypassed cfg c2 = false)
    (hmethod : isIgnored (cfg.IgnoreMethods.getD []) c2.Method = false)
    (hcarry : c2.session = c1.session)
    (hpresent : (cfg.Extractor = some (FromHeader key) ∧ c2.Header key = t) ∨
      (cfg.Extractor = some (FromForm key) ∧ c2.FormValue key = t) ∨
      (cfg.Extractor = some (FromQuery key) ∧ c2.Query key = t) ∨
      (cfg.Extractor = some (FromParam key) ∧ c2.Param key = t)) :
    (handler cfg next c2).nextCount = 1 ∧ (handler cfg next c2).errorFuncCount = 0 ∧
    (handler cfg next c2).result = next (c2.Set csrfSecret (.str secret)) := by
  obtain ⟨salt, hne, hsalt, ht⟩ :=
    GetToken_issues secret fuel c c1 src src1 t hsecret hcache hsession hget
  have htne : t ≠ "" := by
    apply ne_empty_of_length_pos
    rw [ht, length_tokenize]
    decide
  have hx : ∃ extract, cfg.Extractor = some extract ∧
      extract (c2.Set csrfSecret (.str cfg.Secret)) = (t, none) := by
    rcases hpresent with ⟨he, hv⟩ | ⟨he, hv⟩ | ⟨he, hv⟩ | ⟨he, hv⟩
    · exact ⟨_, he, by simp [FromHeader, RequestContext.Set, hv, htne]⟩
    · exact ⟨_, he, by simp [FromForm, FormValue_Set, hv, htne]⟩
    · exact ⟨_, he, by simp [FromQuery, RequestContext.Set, hv, htne]⟩
    · exact ⟨_, he, by simp [FromParam, RequestContext.Set, hv, htne]⟩
  obtain ⟨extract, hextractor, htoken⟩ := hx
  have hv := validation_decision_core cfg next c2 extract salt t hbypass hmethod
    (hcarry ▸ hsalt) hne hextractor htoken
  subst hcfg
  exact ⟨hv.1.mpr ht, (hv.2.1 ht).1, (hv.2.1 ht).2⟩

/-- The round trip of the token `GetToken` issues on `issuingRequest`, where it
draws the salt "V38QjEwrJeMv0ib8", presented again by `returningRequest`. -/
theorem issue_validate_round_trip_witness :
    GetToken 100 issuingRequest exampleSource
      = .ok (tokenize "secret" "V38QjEwrJeMv0ib8", issuedRequest,
          { stream := exampleSource.stream, pos := 2 }) ∧
    (handler resolvedConfig Result.ok returningRequest).nextCount = 1 ∧
    (handler resolvedConfig Result.ok returningRequest).errorFuncCount = 0 ∧
    (handler resolvedConfig Result.ok returningRequest).result
      = Result.ok (returningRequest.Set csrfSecret (.str "secret")) :=
  have hget : GetToken 100 issuingRequest exampleSource
      = .ok (tokenize "secret" "V38QjEwrJeMv0ib8", issuedRequest,
          { stream := exampleSource.stream, pos := 2 }) :=
    GetToken_generates "secret" "V38QjEwrJeMv0ib8" 100 issuingRequest exampleSource
      { stream := exampleSource.stream, pos := 2 } (by decide) (by decide)
      (fun s h => by
        have h0 : issuingRequest.session.Get csrfSalt = none := by decide
        rw [h0] at h
        cases h)
      randStr_exampleSource
  ⟨hget, issue_validate_round_trip "secret" 100 issuingRequest issuedRequest exampleSource
    { stream := exampleSource.stream, pos := 2 } (tokenize "secret" "V38QjEwrJeMv0ib8")
    resolvedConfig Result.ok returningRequest "X-Csrf-Token"
    (by decide) (by decide) (by decide) hget rfl (by decide) (by decide) (by decide)
    (Or.inl ⟨rfl, by simp [returningRequest]⟩)⟩

/-- C8, the code at the failing inputs. With the config `New` resolves
`Config{}` to, a POST request whose session has no salt, and one that presents
a wrong token, reach the failure handler with no error recorded on the
request, so the default handler panics with a nil error and not with
`errMissingSalt` or `errInvalidToken`; the sibling path, a missing token,
does record its error before it invokes the failure handler. -/
theorem rejection_records_no_error :
    New [emptyConfig] = .ok (handler resolvedConfig) ∧
    (handler resolvedConfig Result.ok postRequest).calls
      = [.sessionDefault, .set csrfSecret (.str "secret"), .sessionGet csrfSalt,
          .errorFunc none] ∧
    (handler resolvedConfig Result.ok postRequest).panicked = some (.value none) ∧
    (handler resolvedConfig Result.ok tamperedRequest).calls
      = [.sessionDefault, .set csrfSecret (.str "secret"), .sessionGet csrfSalt,
          .extractor, .errorFunc none] ∧
    (handler resolvedConfig Result.ok tamperedRequest).panicked = some (.value none) ∧
    (handler resolvedConfig Result.ok tokenlessRequest).calls
      = [.sessionDefault, .set csrfSecret (.str "secret"), .sessionGet csrfSalt,
          .extractor, .error errMissingHeader, .errorFunc (some errMissingHeader)] ∧
    (handler resolvedConfig Result.ok tokenlessRequest).panicked
      = some (.value (some errMissingHeader)) := by
  refine ⟨by rfl, by decide, by decide, by decide!, by decide!, by decide, by decide⟩

/-- C9 fails on the bypass path: a PUT request that the bypass predicate of
`bypassConfig` skips is forwarded with nothing stored in the request cache,
and a downstream handler that calls `GetToken` panics on the missing
secret. -/
theorem bypass_leaves_secret_unattached :
    bypassed bypassConfig { postRequest with Method := "PUT" } = true ∧
    (handler bypassConfig (issueToken 100 exampleSource)
        { postRequest with Method := "PUT" }).calls = [.bypass, .next] ∧
    (handler bypassConfig (issueToken 100 exampleSource)
        { postRequest with Method := "PUT" }).panicked = some (.missingKey csrfSecret) := by
  refine ⟨by decide, by decide, by decide⟩

/-- C9, amended. Secret attached on the ignored-method path: when the bypass
predicate is absent or returns false and the method of the request `c` is in
the ignored list, the handler forwards once, and the downstream handler runs
on the request context with the configured secret stored in the request
cache, where `GetToken` returns a token (the cache holding no value under the
token key that is not a string, and the salt loop finishing on the random
source). Every request that the bypass predicate exempts is forwarded as it
came in, the secret not stored. -/
theorem secret_attached_on_ignored_method (cfg : Config) (c : RequestContext)
    (fuel : Nat) (src : RandSource)
    (hbypass : bypassed cfg c = false)
    (hmethod : isIgnored (cfg.IgnoreMethods.getD []) c.Method = true)
    (hcache : ∀ tag, c.Get csrfToken ≠ some (.other tag))
    (hrand : (randStr fuel 16 src).isSome = true) :
    (∀ next : HandlerFunc, (handler cfg next c).nextCount = 1 ∧
      (handler cfg next c).result = next (c.Set csrfSecret (.str cfg.Secret))) ∧
    (c.Set csrfSecret (.str cfg.Secret)).Get csrfSecret = some (.str cfg.Secret) ∧
    (∃ t c1 src1, GetToken fuel (c.Set csrfSecret (.str cfg.Secret)) src = .ok (t, c1, src1)) ∧
    (∀ cb : RequestContext, bypassed cfg cb = true → ∀ next : HandlerFunc,
      (handler cfg next cb).calls = [.bypass, .next] ∧
      (handler cfg next cb).result = next cb) := by
  obtain ⟨b1, -, -, -⟩ := bypassLog_counts cfg
  have hsec : (c.Set csrfSecret (.str cfg.Secret)).Get csrfSecret = some (.str cfg.Secret) :=
    Store.get_set_self _ _ _
  have htok : (c.Set csrfSecret (.str cfg.Secret)).Get csrfToken = c.Get csrfToken :=
    Store.get_set_of_ne _ _ _ _ (by decide)
  refine ⟨?_, hsec, ?_, ?_⟩
  · intro next
    rw [handler_of_not_bypassed cfg next c hbypass, validate_ignored cfg next c _ hmethod]
    simp [Run.nextCount, b1]
  · unfold GetToken
    simp only [hsec, htok]
    cases hc : c.Get csrfToken with
    | some v =>
      cases v with
      | other tag => exact absurd hc (hcache tag)
      | str t => exact ⟨_, _, _, rfl⟩
    | none =>
      simp only
      split
      · exact ⟨_, _, _, rfl⟩
      · cases hr : randStr fuel 16 src with
        | none => rw [hr] at hrand; simp at hrand
        | some r => exact ⟨_, _, _, rfl⟩
  · intro cb hskip next
    rw [handler_of_bypassed cfg next cb hskip]
    exact ⟨rfl, rfl⟩

/-- A GET request, exempt by its method, under the default config, which has
no bypass predicate, and under `bypassConfig`, whose predicate is false on
it; and a PUT request, which the predicate of `bypassConfig` exempts. -/
theorem secret_attached_on_ignored_method_witness :
    ((∀ next : HandlerFunc,
        (handler resolvedConfig next { postRequest with Method := "GET" }).nextCount = 1 ∧
        (handler resolvedConfig next { postRequest with Method := "GET" }).result
          = next (({ postRequest with Method := "GET" } : RequestContext).Set csrfSecret
              (.str resolvedConfig.Secret))) ∧
      (∃ t c1 src1, GetToken 100
          (({ postRequest with Method := "GET" } : RequestContext).Set csrfSecret
            (.str resolvedConfig.Secret)) exampleSource = .ok (t, c1, src1))) ∧
    ((∀ next : HandlerFunc,
        (handler bypassConfig next { postRequest with Method := "GET" }).nextCount = 1 ∧
        (handler bypassConfig next { postRequest with Method := "GET" }).result
          = next (({ postRequest with Method := "GET" } : RequestContext).Set csrfSecret
              (.str bypassConfig.Secret))) ∧
      (∃ t c1 src1, GetToken 100
          (({ postRequest with Method := "GET" } : RequestContext).Set csrfSecret
            (.str bypassConfig.Secret)) exampleSource = .ok (t, c1, src1)) ∧
      (∀ next : HandlerFunc,
        (handler bypassConfig next { postRequest with Method := "PUT" }).calls
          = [.bypass, .next] ∧
        (handler bypassConfig next { postRequest with Method := "PUT" }).result
          = next { postRequest with Method := "PUT" })) :=
  have hcache : ∀ tag,
      ({ postRequest with Method := "GET" } : RequestContext).Get csrfToken
        ≠ some (.other tag) := fun tag h => by
    have h0 : ({ postRequest with Method := "GET" } : RequestContext).Get csrfToken = none := by
      decide
    rw [h0] at h
    cases h
  have h1 := secret_attached_on_ignored_method resolvedConfig
    { postRequest with Method := "GET" } 100 exampleSource
    (by decide) (by decide) hcache (by decide!)
  have h2 := secret_attached_on_ignored_method bypassConfig
    { postRequest with Method := "GET" } 100 exampleSource
    (by decide) (by decide) hcache (by decide!)
  ⟨⟨h1.1, h1.2.2.1⟩, h2.1, h2.2.2.1, h2.2.2.2 { postRequest with Method := "PUT" } (by decide)⟩

/-! ## Token alphabet -/

theorem encodeChar_mem (i : Nat) : encodeChar i ∈ encodeURL := by
  unfold encodeChar
  have h : i % 64 < encodeURL.length := by
    have : encodeURL.length = 64 := by decide
    omega
  rw [List.getD_eq_getElem _ _ h]
  exact List.getElem_mem _

theorem encodeURL_isURLSafe : ∀ ch ∈ encodeURL, isURLSafe ch = true := by
  decide

/-- The encoding of a byte string whose length is 2 modulo 3 ends in one
padding character, after characters of the alphabet. -/
theorem EncodeToString_padded (l : List Nat) (h : l.length % 3 = 2) :
    ∃ body : List Char, EncodeToString l = body ++ ['='] ∧ ∀ ch ∈ body, ch ∈ encodeURL := by
  induction l using EncodeToString.induct with
  | case1 => simp at h
  | case2 b0 => simp at h
  | case3 b0 b1 =>
    refine ⟨[encodeChar (((b0 <<< 16) ||| (b1 <<< 8)) >>> 18),
      encodeChar (((b0 <<< 16) ||| (b1 <<< 8)) >>> 12),
      encodeChar (((b0 <<< 16) ||| (b1 <<< 8)) >>> 6)], by simp [EncodeToString], ?_⟩
    intro ch hch
    simp only [List.mem_cons, List.mem_singleton, List.not_mem_nil, or_false] at hch
    rcases hch with h1 | h1 | h1 <;> (rw [h1]; exact encodeChar_mem _)
  | case4 b0 b1 b2 rest ih =>
    have hr : rest.length % 3 = 2 := by
      simp only [List.length_cons] at h
      omega
    obtain ⟨body, hb, hmem⟩ := ih hr
    refine ⟨encodeChar (((b0 <<< 16) ||| (b1 <<< 8) ||| b2) >>> 18)
      :: encodeChar (((b0 <<< 16) ||| (b1 <<< 8) ||| b2) >>> 12)
      :: encodeChar (((b0 <<< 16) ||| (b1 <<< 8) ||| b2) >>> 6)
      :: encodeChar ((b0 <<< 16) ||| (b1 <<< 8) ||| b2) :: body, by simp [EncodeToString, hb], ?_⟩
    intro ch hch
    simp only [List.mem_cons] at hch
    rcases hch with h1 | h1 | h1 | h1 | h1
    · rw [h1]; exact encodeChar_mem _
    · rw [h1]; exact encodeChar_mem _
    · rw [h1]; exact encodeChar_mem _
    · rw [h1]; exact encodeChar_mem _
    · exact hmem ch h1

/-- A token is 43 characters of the alphabet, then the padding character. -/
theorem token_shape (secret salt : String) :
    ∃ body : List Char, (tokenize secret salt).data = body ++ ['='] ∧ body.length = 43 ∧
      ∀ ch ∈ body, ch ∈ encodeURL := by
  obtain ⟨body, hb, hmem⟩ := EncodeToString_padded
    (Sha256.sum (stringBytes (salt ++ "-" ++ secret))) (by rw [Sha256.sum_length])
  refine ⟨body, hb, ?_, hmem⟩
  have hlen := length_tokenize secret salt
  have hd : (tokenize secret salt).data = body ++ ['='] := hb
  rw [String.length, hd] at hlen
  simp only [List.length_append, List.length_singleton] at hlen
  omega

/-! ## Token alphabet: claims -/

/-- C11 fails: the last of the 44 characters of the token of the secret
"secret" and the salt "abcdefghijklmnop" is the padding character `=`, which
is not in the URL-safe alphabet. -/
theorem token_ends_in_padding :
    (tokenize "secret" "abcdefghijklmnop").data.getLast? = some '=' ∧
    '=' ∈ (tokenize "secret" "abcdefghijklmnop").data ∧ '=' ∉ encodeURL := by
  rw [tokenize_example]
  decide

/-- C11, amended. Token alphabet, with padding: for every secret and salt,
the first 43 of the 44 characters of the token belong to the URL-safe base64
alphabet (A-Z, a-z, 0-9, `-`, `_`), and the last one is the padding
character `=`, which is not in that alphabet. -/
theorem token_alphabet_padded (secret salt : String) :
    ∃ body : List Char, (tokenize secret salt).data = body ++ ['='] ∧ body.length = 43 ∧
      (∀ ch ∈ body, ch ∈ encodeURL ∧ isURLSafe ch = true) ∧
      '=' ∉ encodeURL ∧ isURLSafe '=' = false := by
  obtain ⟨body, hb, hlen, hmem⟩ := token_shape secret salt
  exact ⟨body, hb, hlen, fun ch hch => ⟨hmem ch hch, encodeURL_isURLSafe ch (hmem ch hch)⟩,
    by decide, by decide⟩

/-! ## Extractors: claims -/

/-- What the four extractors return. `FromHeader k`, `FromQuery k` and
`FromParam k` return the field named `k` of their own source unchanged and
with no error when it is not empty, and the empty string with their own
error when it is empty, the same on any request with the same such field;
`FromForm k` does so with what `c.FormValue` returns, which is the value of
`k` in the query string whenever that is not empty. The four errors are
different. -/
theorem extractor_results (k : String) (c : RequestContext) :
    (FromHeader k c
        = if c.Header k = "" then ("", some errMissingHeader) else (c.Header k, none)) ∧
    (FromQuery k c
        = if c.Query k = "" then ("", some errMissingQuery) else (c.Query k, none)) ∧
    (FromParam k c
        = if c.Param k = "" then ("", some errMissingParam) else (c.Param k, none)) ∧
    (FromForm k c
        = if c.FormValue k = "" then ("", some errMissingForm) else (c.FormValue k, none)) ∧
    ((FromHeader k c = ("", some errMissingHeader) ↔ c.Header k = "") ∧
      (FromQuery k c = ("", some errMissingQuery) ↔ c.Query k = "") ∧
      (FromParam k c = ("", some errMissingParam) ↔ c.Param k = "")) ∧
    (∀ c2 : RequestContext,
      (c2.Header k = c.Header k → FromHeader k c2 = FromHeader k c) ∧
      (c2.Query k = c.Query k → FromQuery k c2 = FromQuery k c) ∧
      (c2.Param k = c.Param k → FromParam k c2 = FromParam k c)) ∧
    (c.Query k ≠ "" → FromForm k c = (c.Query k, none)) ∧
    [errMissingHeader, errMissingQuery, errMissingParam, errMissingForm].Nodup := by
  refine ⟨rfl, rfl, rfl, rfl, ⟨?_, ?_, ?_⟩, ?_, ?_, by decide⟩
  · by_cases h : c.Header k = "" <;> simp [FromHeader, h]
  · by_cases h : c.Query k = "" <;> simp [FromQuery, h]
  · by_cases h : c.Param k = "" <;> simp [FromParam, h]
  · intro c2
    refine ⟨?_, ?_, ?_⟩
    · intro h; simp [FromHeader, h]
    · intro h; simp [FromQuery, h]
    · intro h; simp [FromParam, h]
  · intro h
    simp [FromForm, RequestContext.FormValue, h]

/-- C12, the code at the failing input. On a POST request with an empty body
whose query string holds `_csrf=fromquery`, `FromForm "_csrf"` returns the
value of the query string with no error, as `FromQuery "_csrf"` does, where
the claim has it report the token as missing in the form; with the query
string empty as well it does report it missing. -/
theorem FromForm_reads_query :
    queryOnlyRequest.PostArgs "_csrf" = "" ∧ queryOnlyRequest.MultipartForm "_csrf" = "" ∧
    FromForm "_csrf" queryOnlyRequest = ("fromquery", none) ∧
    FromQuery "_csrf" queryOnlyRequest = ("fromquery", none) ∧
    FromForm "_csrf" postRequest = ("", some errMissingForm) := by
  decide

/-! ## Configuration: lemmas -/

theorem splitChars_ne_nil (sep : Char) (l : List Char) : splitChars sep l ≠ [] := by
  cases l with
  | nil => simp [splitChars]
  | cons c cs =>
    by_cases h : c = sep
    · simp [splitChars, h]
    · simp only [splitChars, h, if_false]
      split <;> simp

theorem splitChars_length (sep : Char) (l : List Char) :
    (splitChars sep l).length = l.count sep + 1 := by
  induction l with
  | nil => simp [splitChars]
  | cons c cs ih =>
    by_cases h : c = sep
    · subst h
      simp [splitChars, ih]
    · have h2 : (c == sep) = false := by simpa using h
      simp only [splitChars, h, if_false, List.count_cons, h2]
      split
      · rename_i he
        exact absurd he (splitChars_ne_nil sep cs)
      · rename_i w ws he
        rw [he] at ih
        simpa using ih

theorem splitChars_of_not_mem (sep : Char) (l : List Char) (h : sep ∉ l) :
    splitChars sep l = [l] := by
  induction l with
  | nil => rfl
  | cons c cs ih =>
    have hc : ¬ c = sep := fun e => h (by simp [e])
    have hcs : sep ∉ cs := fun e => h (List.mem_cons_of_mem _ e)
    simp [splitChars, hc, ih hcs]

theorem splitChars_append_sep (sep : Char) (a b : List Char) (h : sep ∉ a) :
    splitChars sep (a ++ sep :: b) = a :: splitChars sep b := by
  induction a with
  | nil => simp [splitChars]
  | cons c cs ih =>
    have hc : ¬ c = sep := fun e => h (by simp [e])
    have hcs : sep ∉ cs := fun e => h (List.mem_cons_of_mem _ e)
    simp [splitChars, hc, ih hcs]

/-- Splitting "source:key" gives the two parts, when neither holds a colon. -/
theorem Split_lookup (source key : String) (hsource : ':' ∉ source.data)
    (hkey : ':' ∉ key.data) : Split (source ++ ":" ++ key) ':' = [source, key] := by
  have hd : (source ++ ":" ++ key).data = source.data ++ ':' :: key.data := by
    simp [String.data_append]
  simp [Split, hd, splitChars_append_sep _ _ _ hsource, splitChars_of_not_mem _ _ hkey]

theorem Split_length (s : String) (sep : Char) : (Split s sep).length = s.data.count sep + 1 := by
  simp [Split, splitChars_length]

theorem setDefaults_KeyLookup (cfg : Config) : (setDefaults cfg).KeyLookup = lookupOf cfg := rfl

/-- What `configDefault` gives on a lookup string that splits into two parts. -/
theorem configDefault_of_split (cfg : Config) (rest : List Config) (source key : String)
    (h : Split (lookupOf cfg) ':' = [source, key]) :
    configDefault (cfg :: rest) =
      .ok (if cfg.Extractor.isNone then
          { setDefaults cfg with Extractor := some (lookupExtractor source key) }
        else setDefaults cfg) := by
  have hx : (setDefaults cfg).Extractor = cfg.Extractor := rfl
  simp only [configDefault, setDefaults_KeyLookup, h, hx]
  split <;> rfl

/-- What `configDefault` gives on a lookup string that does not. -/
theorem configDefault_of_not_split (cfg : Config) (rest : List Config)
    (h : (Split (lookupOf cfg) ':').length ≠ 2) :
    configDefault (cfg :: rest) = .panic (.value (some errKeyLookup)) := by
  simp only [configDefault, setDefaults_KeyLookup]
  split
  · rename_i source key he
    rw [he] at h
    simp at h
  · rfl

theorem exists_pair_of_length_two {α : Type} (l : List α) (h : l.length = 2) :
    ∃ a b, l = [a, b] := by
  match l, h with
  | [a, b], _ => exact ⟨a, b, rfl⟩

/-- The config `configDefault` resolves to, or the panic, by the number of
parts of the lookup string. -/
theorem configDefault_panics_iff (cfg : Config) (rest : List Config) :
    configDefault (cfg :: rest) = .panic (.value (some errKeyLookup))
      ↔ (Split (lookupOf cfg) ':').length ≠ 2 := by
  constructor
  · intro hp hlen
    obtain ⟨source, key, hs⟩ := exists_pair_of_length_two _ hlen
    rw [configDefault_of_split cfg rest source key hs] at hp
    cases hp
  · exact configDefault_of_not_split cfg rest

theorem lookup_ne_empty (source key : String) : source ++ ":" ++ key ≠ "" := by
  intro h
  have hd : (source ++ ":" ++ key).data = ("" : String).data := by rw [h]
  simp [String.data_append] at hd

theorem New_of_configDefault (config : List Config) (r : Config)
    (h : configDefault config = .ok r) : New config = .ok (handler r) := by
  simp [New, h]

theorem New_panics_iff (config : List Config) (p : Panic) :
    New config = .panic p ↔ configDefault config = .panic p := by
  unfold New
  cases configDefault config <;> simp

/-! ## Configuration: claims -/

/-- C13. Lookup parsing fails fast: for the lookup string of a supplied
config (the default "header:X-CSRF-TOKEN" standing in for an empty one),
`configDefault` panics with the KeyLookup error if and only if splitting the
string on `:` does not give exactly two parts, that is, iff the string does
not hold exactly one `:`. `New` then panics too and returns no handler;
otherwise it returns one. "herder" and "a:b:c" abort, "header:X" does not. -/
theorem keyLookup_fails_fast (cfg : Config) (rest : List Config) :
    (configDefault (cfg :: rest) = .panic (.value (some errKeyLookup))
        ↔ (Split (lookupOf cfg) ':').length ≠ 2) ∧
    ((Split (lookupOf cfg) ':').length ≠ 2 ↔ (lookupOf cfg).data.count ':' ≠ 1) ∧
    (New (cfg :: rest) = .panic (.value (some errKeyLookup))
        ↔ (lookupOf cfg).data.count ':' ≠ 1) ∧
    ((lookupOf cfg).data.count ':' = 1 → ∃ h, New (cfg :: rest) = .ok h) ∧
    lookupOf { cfg with KeyLookup := "" } = "header:X-CSRF-TOKEN" ∧
    configDefault [{ emptyConfig with KeyLookup := "herder" }]
      = .panic (.value (some errKeyLookup)) ∧
    configDefault [{ emptyConfig with KeyLookup := "a:b:c" }]
      = .panic (.value (some errKeyLookup)) ∧
    (∃ r, configDefault [{ emptyConfig with KeyLookup := "header:X" }] = .ok r) := by
  have hcount : (Split (lookupOf cfg) ':').length ≠ 2 ↔ (lookupOf cfg).data.count ':' ≠ 1 := by
    rw [Split_length]
    omega
  refine ⟨configDefault_panics_iff cfg rest, hcount, ?_, ?_, rfl, ?_, ?_, ?_⟩
  · rw [New_panics_iff, configDefault_panics_iff, hcount]
  · intro h1
    have h2 : (Split (lookupOf cfg) ':').length = 2 := by
      rw [Split_length]
      omega
    obtain ⟨source, key, hs⟩ := exists_pair_of_length_two _ h2
    exact ⟨_, New_of_configDefault _ _ (configDefault_of_split cfg rest source key hs)⟩
  · exact configDefault_of_not_split _ _ (by decide)
  · exact configDefault_of_not_split _ _ (by decide)
  · exact ⟨_, configDefault_of_split _ _ "header" "X" (by decide)⟩

/-- C14 fails: the lookup strings "header:", ":X-CSRF-TOKEN" and ":", whose
source part or key part is empty, do not abort configuration resolution. -/
theorem empty_lookup_parts_accepted :
    (∃ r, configDefault [{ emptyConfig with KeyLookup := "header:" }] = .ok r) ∧
    (∃ r, configDefault [{ emptyConfig with KeyLookup := ":X-CSRF-TOKEN" }] = .ok r) ∧
    (∃ r, configDefault [{ emptyConfig with KeyLookup := ":" }] = .ok r) :=
  ⟨⟨_, configDefault_of_split _ _ "header" "" (by decide)⟩,
    ⟨_, configDefault_of_split _ _ "" "X-CSRF-TOKEN" (by decide)⟩,
    ⟨_, configDefault_of_split _ _ "" "" (by decide)⟩⟩

/-- C14, amended. Lookup parts: a lookup specification must split on `:`
into exactly two parts, otherwise configuration is rejected immediately; the
parts may be empty: every lookup string made of a source part, one `:` and a
key part, also with the source part or the key part empty, is accepted, and
configuration resolves to a config that `New` builds a handler from. -/
theorem lookup_parts_may_be_empty (cfg : Config) (rest : List Config) (source key : String)
    (hsource : ':' ∉ source.data) (hkey : ':' ∉ key.data)
    (hlookup : cfg.KeyLookup = source ++ ":" ++ key) :
    (∃ r, configDefault (cfg :: rest) = .ok r ∧ r.KeyLookup = source ++ ":" ++ key) ∧
    (∃ h, New (cfg :: rest) = .ok h) ∧
    (∀ cfg2 : Config, (Split (lookupOf cfg2) ':').length ≠ 2 →
      configDefault (cfg2 :: rest) = .panic (.value (some errKeyLookup))) := by
  have hl : lookupOf cfg = source ++ ":" ++ key := by
    simp [lookupOf, hlookup, lookup_ne_empty]
  have hs : Split (lookupOf cfg) ':' = [source, key] := by
    rw [hl]
    exact Split_lookup source key hsource hkey
  have hc := configDefault_of_split cfg rest source key hs
  refine ⟨⟨_, hc, ?_⟩, ⟨_, New_of_configDefault _ _ hc⟩,
    fun cfg2 h2 => configDefault_of_not_split cfg2 rest h2⟩
  split <;> exact hl

/-- The lookup "header:" with its empty key part. -/
theorem lookup_parts_may_be_empty_witness :
    (∃ r, configDefault [{ emptyConfig with KeyLookup := "header:" }] = .ok r ∧
      r.KeyLookup = "header" ++ ":" ++ "") ∧
    (∃ h, New [{ emptyConfig with KeyLookup := "header:" }] = .ok h) ∧
    (∀ cfg2 : Config, (Split (lookupOf cfg2) ':').length ≠ 2 →
      configDefault (cfg2 :: []) = .panic (.value (some errKeyLookup))) :=
  lookup_parts_may_be_empty { emptyConfig with KeyLookup := "header:" } [] "header" ""
    (by decide) (by decide) (by decide)

/-- C15. Lookup-to-extractor mapping: for a lookup string made of a source
part, one `:` and a key part, and no extractor given, configuration resolves,
and the extractor is `FromForm key` for the source "form", `FromQuery key`
for "query", `FromParam key` for "param", and for every other source the
header extractor on the key in canonical MIME header form. -/
theorem lookup_extractor_mapping (cfg : Config) (rest : List Config) (source key : String)
    (hsource : ':' ∉ source.data) (hkey : ':' ∉ key.data)
    (hlookup : lookupOf cfg = source ++ ":" ++ key) (hnone : cfg.Extractor = none) :
    ∃ r, configDefault (cfg :: rest) = .ok r ∧
      (source = "form" → r.Extractor = some (FromForm key)) ∧
      (source = "query" → r.Extractor = some (FromQuery key)) ∧
      (source = "param" → r.Extractor = some (FromParam key)) ∧
      (source ≠ "form" → source ≠ "query" → source ≠ "param" →
        r.Extractor = some (FromHeader (CanonicalMIMEHeaderKey key))) := by
  have hs : Split (lookupOf cfg) ':' = [source, key] := by
    rw [hlookup]
    exact Split_lookup source key hsource hkey
  refine ⟨_, configDefault_of_split cfg rest source key hs, ?_, ?_, ?_, ?_⟩
  · intro h
    simp [hnone, lookupExtractor, h]
  · intro h
    simp [hnone, lookupExtractor, h]
  · intro h
    simp [hnone, lookupExtractor, h]
  · intro h1 h2 h3
    simp [hnone, lookupExtractor, h1, h2, h3]

/-- The lookups "param:csrf" and "Form:_csrf", and the default lookup of
`Config{}`, whose key "X-CSRF-TOKEN" is "X-Csrf-Token" in canonical form. -/
theorem lookup_extractor_mapping_witness :
    (∃ r, configDefault [{ emptyConfig with KeyLookup := "param:csrf" }] = .ok r ∧
      r.Extractor = some (FromParam "csrf")) ∧
    (∃ r, configDefault [{ emptyConfig with KeyLookup := "Form:_csrf" }] = .ok r ∧
      r.Extractor = some (FromHeader (CanonicalMIMEHeaderKey "_csrf"))) ∧
    (∃ r, configDefault [emptyConfig] = .ok r ∧
      r.Extractor = some (FromHeader (CanonicalMIMEHeaderKey "X-CSRF-TOKEN"))) ∧
    CanonicalMIMEHeaderKey "X-CSRF-TOKEN" = "X-Csrf-Token" :=
  have h1 := lookup_extractor_mapping { emptyConfig with KeyLookup := "param:csrf" } []
    "param" "csrf" (by decide) (by decide) (by decide) rfl
  have h2 := lookup_extractor_mapping { emptyConfig with KeyLookup := "Form:_csrf" } []
    "Form" "_csrf" (by decide) (by decide) (by decide) rfl
  have h3 := lookup_extractor_mapping emptyConfig [] "header" "X-CSRF-TOKEN"
    (by decide) (by decide) (by decide) rfl
  ⟨h1.elim fun r hr => ⟨r, hr.1, hr.2.2.2.1 rfl⟩,
    h2.elim fun r hr => ⟨r, hr.1, hr.2.2.2.2 (by decide) (by decide) (by decide)⟩,
    h3.elim fun r hr => ⟨r, hr.1, hr.2.2.2.2 (by decide) (by decide) (by decide)⟩,
    by decide⟩

/-- C16. Extractor override: when the config supplies an extractor and its
lookup string is well formed, configuration resolves to the config with its
defaults set and the supplied extractor in place, whatever the source and the
key of the lookup string are; the handler `New` returns forwards exactly when
the token that extractor returns is `tokenize secret salt`. -/
theorem extractor_override (cfg : Config) (rest : List Config)
    (extract : CsrfExtractorHandler)
    (hextractor : cfg.Extractor = some extract)
    (hlookup : (lookupOf cfg).data.count ':' = 1) :
    configDefault (cfg :: rest) = .ok (setDefaults cfg) ∧
    (setDefaults cfg).Extractor = some extract ∧
    New (cfg :: rest) = .ok (handler (setDefaults cfg)) ∧
    (∀ (next : HandlerFunc) (c : RequestContext) (salt t : String),
      bypassed (setDefaults cfg) c = false →
      isIgnored ((setDefaults cfg).IgnoreMethods.getD []) c.Method = false →
      c.session.Get csrfSalt = some (.str salt) → salt ≠ "" →
      extract (c.Set csrfSecret (.str (setDefaults cfg).Secret)) = (t, none) →
      ((handler (setDefaults cfg) next c).nextCount = 1
        ↔ t = tokenize (setDefaults cfg).Secret salt)) := by
  have h2 : (Split (lookupOf cfg) ':').length = 2 := by
    rw [Split_length]
    omega
  obtain ⟨source, key, hs⟩ := exists_pair_of_length_two _ h2
  have hc : configDefault (cfg :: rest) = .ok (setDefaults cfg) := by
    rw [configDefault_of_split cfg rest source key hs]
    simp [hextractor]
  have hx : (setDefaults cfg).Extractor = some extract := hextractor
  refine ⟨hc, hx, New_of_configDefault _ _ hc, ?_⟩
  intro next c salt t hb hm hsalt hne ht
  exact (validation_decision_core (setDefaults cfg) next c extract salt t hb hm hsalt hne
    hx ht).1

/-- The config of `TestExtractor`, with a lookup string the extractor makes
no use of, on a request that presents the token in the form field the
extractor reads. -/
theorem extractor_override_witness :
    configDefault [overrideConfig] = .ok (setDefaults overrideConfig) ∧
    New [overrideConfig] = .ok (handler (setDefaults overrideConfig)) ∧
    (handler (setDefaults overrideConfig) Result.ok overrideRequest).nextCount = 1 :=
  have h := extractor_override overrideConfig [] (fun c => (c.FormValue "token getter", none))
    rfl (by decide)
  ⟨h.1, h.2.2.1,
    (h.2.2.2 Result.ok overrideRequest "abcdefghijklmnop"
      (tokenize "secret123" "abcdefghijklmnop") (by decide) (by decide) (by decide)
      (by decide)
      (by
        have hne : tokenize "secret123" "abcdefghijklmnop" ≠ "" :=
          ne_empty_of_length_pos _ (by rw [length_tokenize]; decide)
        simp [overrideRequest, RequestContext.Set, RequestContext.FormValue, postRequest,
          hne])).mpr rfl⟩

/-! ## The salt and the token cache: lemmas -/

/-- The context the middleware hands to the handler it invokes, whichever
that is, holds the session of the request. -/
theorem validate_session (cfg : Config) (c : RequestContext) (log : List Call) :
    ∃ c1 : RequestContext, c1.session = c.session ∧
      ∀ next : HandlerFunc,
        (validate cfg next c log).result = next c1 ∨
        (validate cfg next c log).result = callHandler cfg.ErrorFunc c1 ∨
        (validate cfg next c log).result = .panic .nilFunc := by
  cases hm : isIgnored (cfg.IgnoreMethods.getD []) c.Method with
  | true =>
    refine ⟨c.Set csrfSecret (.str cfg.Secret), rfl, fun next => Or.inl ?_⟩
    rw [validate_ignored cfg next c log hm]
  | false =>
    by_cases hs : ∃ salt, c.session.Get csrfSalt = some (.str salt) ∧ salt ≠ ""
    · obtain ⟨salt, hsalt, hne⟩ := hs
      cases hx : cfg.Extractor with
      | none =>
        have hlen : ¬ salt.length = 0 := by
          intro h0
          apply hne
          cases salt with
          | mk data =>
            have : data = [] := List.length_eq_zero.mp h0
            subst this
            rfl
        have hm2 : isIgnored (cfg.IgnoreMethods.getD [])
            (c.Set csrfSecret (.str cfg.Secret)).Method = false := hm
        refine ⟨c, rfl, fun next => Or.inr (Or.inr ?_)⟩
        simp [validate, hm2, hsalt, hlen, hx]
      | some extract =>
        rcases he : extract (c.Set csrfSecret (.str cfg.Secret)) with ⟨token, err⟩
        cases err with
        | some err =>
          refine ⟨(c.Set csrfSecret (.str cfg.Secret)).Error err, rfl,
            fun next => Or.inr (Or.inl ?_)⟩
          rw [validate_with_salt cfg next c log salt extract hm hsalt hne hx, he]
        | none =>
          refine ⟨c.Set csrfSecret (.str cfg.Secret), rfl, fun next => ?_⟩
          rw [validate_with_salt cfg next c log salt extract hm hsalt hne hx, he]
          by_cases ht : tokenize cfg.Secret salt = token
          · left
            simp [ht]
          · right
            left
            simp [ht]
    · have hs2 : ∀ salt, c.session.Get csrfSalt = some (.str salt) → salt = "" := by
        intro salt hg
        by_contra hne
        exact hs ⟨salt, hg, hne⟩
      refine ⟨c.Set csrfSecret (.str cfg.Secret), rfl, fun next => Or.inr (Or.inl ?_)⟩
      rw [validate_missing_salt cfg next c log hm hs2]

theorem handler_session (cfg : Config) (c : RequestContext) :
    ∃ c1 : RequestContext, c1.session = c.session ∧
      ∀ next : HandlerFunc,
        (handler cfg next c).result = next c1 ∨
        (handler cfg next c).result = callHandler cfg.ErrorFunc c1 ∨
        (handler cfg next c).result = .panic .nilFunc := by
  cases hb : bypassed cfg c with
  | true =>
    refine ⟨c, rfl, fun next => Or.inl ?_⟩
    rw [handler_of_bypassed cfg next c hb]
  | false =>
    obtain ⟨c1, h1, h2⟩ := validate_session cfg c (bypassLog cfg)
    refine ⟨c1, h1, fun next => ?_⟩
    rw [handler_of_not_bypassed cfg next c hb]
    exact h2 next

/-- With a string salt in the session, `GetToken` returns whatever the
randomness is, and leaves the session and the random source as they are. -/
theorem GetToken_of_salt (secret salt : String) (fuel : Nat) (c : RequestContext)
    (src : RandSource)
    (hsecret : c.Get csrfSecret = some (.str secret))
    (hcache : tokenCacheOk secret c = true)
    (hsalt : c.session.Get csrfSalt = some (.str salt)) :
    ∃ c1 : RequestContext, GetToken fuel c src = .ok (tokenize secret salt, c1, src) ∧
      c1.session = c.session := by
  unfold GetToken
  simp only [hsecret]
  unfold tokenCacheOk at hcache
  cases hc : c.Get csrfToken with
  | some v =>
    rw [hc, hsalt] at hcache
    simp only [beq_iff_eq] at hcache
    subst hcache
    exact ⟨c, rfl, rfl⟩
  | none =>
    simp only [hsalt]
    exact ⟨_, rfl, rfl⟩

/-- A call of `GetToken` that changes the session found no string salt. -/
theorem GetToken_session_changed (fuel : Nat) (c c1 : RequestContext) (src src1 : RandSource)
    (t : String) (hget : GetToken fuel c src = .ok (t, c1, src1))
    (hchanged : c1.session ≠ c.session) : ∀ s, c.session.Get csrfSalt ≠ some (.str s) := by
  intro s hs
  apply hchanged
  unfold GetToken at hget
  split at hget
  · cases hget
  · cases hget
  · split at hget
    · simp only [Result.ok.injEq, Prod.mk.injEq] at hget
      obtain ⟨-, rfl, -⟩ := hget
      rfl
    · cases hget
    · simp only [hs] at hget
      simp only [Result.ok.injEq, Prod.mk.injEq] at hget
      obtain ⟨-, rfl, -⟩ := hget
      rfl

/-- When the secret is attached, the cache holds no value under the token
key that is not a string, and the salt loop finishes, `GetToken` returns. -/
theorem GetToken_returns (secret : String) (fuel : Nat) (c : RequestContext) (src : RandSource)
    (hsecret : c.Get csrfSecret = some (.str secret))
    (hcache : ∀ tag, c.Get csrfToken ≠ some (.other tag))
    (hrand : (randStr fuel 16 src).isSome = true) :
    ∃ t c1 src1, GetToken fuel c src = .ok (t, c1, src1) := by
  unfold GetToken
  simp only [hsecret]
  cases hc : c.Get csrfToken with
  | some v =>
    cases v with
    | other tag => exact absurd hc (hcache tag)
    | str t => exact ⟨_, _, _, rfl⟩
  | none =>
    simp only
    split
    · exact ⟨_, _, _, rfl⟩
    · cases hr : randStr fuel 16 src with
      | none => rw [hr] at hrand; simp at hrand
      | some r => exact ⟨_, _, _, rfl⟩

/-- After a call of `GetToken` the token is cached, and a second call
returns it and changes nothing. -/
theorem GetToken_again (fuel fuel2 : Nat) (c c1 : RequestContext) (src src1 : RandSource)
    (t : String) (hget : GetToken fuel c src = .ok (t, c1, src1)) :
    c1.Get csrfToken = some (.str t) ∧ GetToken fuel2 c1 src1 = .ok (t, c1, src1) := by
  have key : ∀ secret, c1.Get csrfSecret = some (.str secret) →
      c1.Get csrfToken = some (.str t) →
      c1.Get csrfToken = some (.str t) ∧ GetToken fuel2 c1 src1 = .ok (t, c1, src1) := by
    intro secret h1 h2
    refine ⟨h2, ?_⟩
    unfold GetToken
    simp only [h1, h2]
  unfold GetToken at hget
  split at hget
  · cases hget
  · cases hget
  · rename_i secret hsecret
    split at hget
    · rename_i t0 htok
      simp only [Result.ok.injEq, Prod.mk.injEq] at hget
      obtain ⟨rfl, rfl, rfl⟩ := hget
      exact key secret hsecret htok
    · cases hget
    · split at hget
      · simp only [Result.ok.injEq, Prod.mk.injEq] at hget
        obtain ⟨rfl, rfl, rfl⟩ := hget
        refine key secret ?_ (Store.get_set_self _ _ _)
        exact (Store.get_set_of_ne _ _ _ _ (by decide)).trans hsecret
      · split at hget
        · cases hget
        · simp only [Result.ok.injEq, Prod.mk.injEq] at hget
          obtain ⟨rfl, rfl, rfl⟩ := hget
          refine key secret ?_ (Store.get_set_self _ _ _)
          exact (Store.get_set_of_ne _ _ _ _ (by decide)).trans hsecret

/-! ## The salt and the token cache: claims -/

/-- C17. Salt is never regenerated: the validation handler hands the session
on as it found it, on every path, to the downstream handler or to the failure
handler (or panics on a nil extractor); `GetToken`, when the session already holds
a string salt, returns `tokenize secret salt` for that salt and leaves the
session (and the random source) unchanged; and a call of `GetToken` that
changes the session found no string salt in it. -/
theorem salt_never_regenerated (secret salt : String) (fuel : Nat) (c : RequestContext)
    (src : RandSource)
    (hsecret : c.Get csrfSecret = some (.str secret))
    (hcache : tokenCacheOk secret c = true)
    (hsalt : c.session.Get csrfSalt = some (.str salt)) :
    (∃ c1 : RequestContext, GetToken fuel c src = .ok (tokenize secret salt, c1, src) ∧
      c1.session = c.session) ∧
    (∀ (cfg : Config) (c0 : RequestContext),
      ∃ c1 : RequestContext, c1.session = c0.session ∧
        ∀ next : HandlerFunc,
          (handler cfg next c0).result = next c1 ∨
          (handler cfg next c0).result = callHandler cfg.ErrorFunc c1 ∨
          (handler cfg next c0).result = .panic .nilFunc) ∧
    (∀ (fuel0 : Nat) (c0 c1 : RequestContext) (src0 src1 : RandSource) (t : String),
      GetToken fuel0 c0 src0 = .ok (t, c1, src1) → c1.session ≠ c0.session →
      ∀ s, c0.session.Get csrfSalt ≠ some (.str s)) :=
  ⟨GetToken_of_salt secret salt fuel c src hsecret hcache hsalt,
    fun cfg c0 => handler_session cfg c0,
    fun fuel0 c0 c1 src0 src1 t hget hchanged =>
      GetToken_session_changed fuel0 c0 c1 src0 src1 t hget hchanged⟩

/-- The call of `GetToken` on `reissuingRequest`, whose session holds the
salt "abcdefghijklmnop", with no fuel for the salt loop. -/
theorem salt_never_regenerated_witness :
    ∃ c1 : RequestContext,
      GetToken 0 reissuingRequest exampleSource
        = .ok (tokenize "secret" "abcdefghijklmnop", c1, exampleSource) ∧
      c1.session = sessionWithSalt :=
  (salt_never_regenerated "secret" "abcdefghijklmnop" 0 reissuingRequest exampleSource
    (by decide) (by decide) (by decide)).1

/-- C18. Token issuance is idempotent within a request: in a request state
in which the secret is attached, a first call of `GetToken` returns a token
and caches it, and a second call, made on the state the first one left,
returns the same token and leaves the request context, its session and cache
included, and the random source exactly as the first call left them. -/
theorem GetToken_idempotent (secret : String) (fuel : Nat) (c : RequestContext)
    (src : RandSource)
    (hsecret : c.Get csrfSecret = some (.str secret))
    (hcache : ∀ tag, c.Get csrfToken ≠ some (.other tag))
    (hrand : (randStr fuel 16 src).isSome = true) :
    ∃ t c1 src1, GetToken fuel c src = .ok (t, c1, src1) ∧
      c1.Get csrfToken = some (.str t) ∧
      ∀ fuel2, GetToken fuel2 c1 src1 = .ok (t, c1, src1) := by
  obtain ⟨t, c1, src1, hget⟩ := GetToken_returns secret fuel c src hsecret hcache hrand
  exact ⟨t, c1, src1, hget, (GetToken_again fuel 0 c c1 src src1 t hget).1,
    fun fuel2 => (GetToken_again fuel fuel2 c c1 src src1 t hget).2⟩

/-- Two calls of `GetToken` on `issuingRequest`, the first of which draws the
salt. -/
theorem GetToken_idempotent_witness :
    ∃ t c1 src1, GetToken 100 issuingRequest exampleSource = .ok (t, c1, src1) ∧
      c1.Get csrfToken = some (.str t) ∧
      ∀ fuel2, GetToken fuel2 c1 src1 = .ok (t, c1, src1) :=
  GetToken_idempotent "secret" 100 issuingRequest exampleSource (by decide)
    (fun tag h => by
      have h0 : issuingRequest.Get csrfToken = none := by decide
      rw [h0] at h
      cases h)
    (by decide!)

/-! ## Options: lemmas -/

theorem Options.Apply_append (o : Options) (opts : List CsrfOption) (op : CsrfOption) :
    Options.Apply o (opts ++ [op]) = op.F (Options.Apply o opts) := by
  induction opts generalizing o with
  | nil => rfl
  | cons op0 opts ih => exact ih (op0.F o)

theorem Options.Apply_frame {α : Type} (proj : Options → α) (opts : List CsrfOption)
    (h : ∀ op ∈ opts, ∀ o, proj (op.F o) = proj o) (o : Options) :
    proj (Options.Apply o opts) = proj o := by
  induction opts generalizing o with
  | nil => rfl
  | cons op0 opts ih =>
    have h1 := ih (fun op hop => h op (List.mem_cons_of_mem _ hop)) (op0.F o)
    exact h1.trans (h op0 (List.mem_cons_self _ _) o)

theorem Options.Apply_append_list (o : Options) (opts opts2 : List CsrfOption) :
    Options.Apply o (opts ++ opts2) = Options.Apply (Options.Apply o opts) opts2 := by
  induction opts generalizing o with
  | nil => rfl
  | cons op0 opts ih => exact ih (op0.F o)

/-! ## Options: claims -/

/-- C19. Default options: `NewOptions` with no options gives the secret
`csrfSecret` (the string "csrfSecret"), the ignored methods "GET", "HEAD",
"OPTIONS", "TRACE" in that order, the lookup "header:X-CSRF-TOKEN", no bypass
predicate and no extractor. -/
theorem default_options :
    (NewOptions []).Secret = csrfSecret ∧ csrfSecret = "csrfSecret" ∧
    (NewOptions []).IgnoreMethods = some ["GET", "HEAD", "OPTIONS", "TRACE"] ∧
    (NewOptions []).KeyLookup = "header:X-CSRF-TOKEN" ∧
    (NewOptions []).Next = none ∧ (NewOptions []).Extractor = none :=
  ⟨rfl, rfl, rfl, by decide, rfl, rfl⟩

/-- C20. Options override only their own field: `NewOptions` applies the
options from left to right on top of the defaults; each of the six options
sets its own field to the value given and leaves the other fields as they
are; a field that none of the options after some point changes keeps the
value it had at that point, its default when no option changes it at all, so
the later of two options on the same field wins. -/
theorem options_override_own_field :
    (∀ (opts : List CsrfOption) (op : CsrfOption),
      NewOptions (opts ++ [op]) = op.F (NewOptions opts)) ∧
    ((∀ o v, (WithSecret v).F o = { o with Secret := v }) ∧
      (∀ o v, (WithIgnoredMethods v).F o = { o with IgnoreMethods := v }) ∧
      (∀ o v, (WithNext v).F o = { o with Next := v }) ∧
      (∀ o v, (WithKeyLookUp v).F o = { o with KeyLookup := v }) ∧
      (∀ o v, (WithErrorFunc v).F o = { o with ErrorFunc := v }) ∧
      (∀ o v, (WithExtractor v).F o = { o with Extractor := v })) ∧
    (∀ (α : Type) (proj : Options → α) (opts : List CsrfOption) (op : CsrfOption)
        (later : List CsrfOption),
      (∀ op2 ∈ later, ∀ o, proj (op2.F o) = proj o) →
      proj (NewOptions (opts ++ [op] ++ later)) = proj (op.F (NewOptions opts))) ∧
    (∀ (α : Type) (proj : Options → α) (opts : List CsrfOption),
      (∀ op ∈ opts, ∀ o, proj (op.F o) = proj o) →
      proj (NewOptions opts) = proj (NewOptions [])) ∧
    ((NewOptions [WithSecret "secret123",
          WithIgnoredMethods (some ["GET", "HEAD", "OPTIONS"])]).Secret = "secret123" ∧
      (NewOptions [WithSecret "secret123",
          WithIgnoredMethods (some ["GET", "HEAD", "OPTIONS"])]).IgnoreMethods
        = some ["GET", "HEAD", "OPTIONS"] ∧
      (NewOptions [WithSecret "secret123",
          WithIgnoredMethods (some ["GET", "HEAD", "OPTIONS"])]).KeyLookup
        = "header:X-CSRF-TOKEN") ∧
    (∀ (opts : List CsrfOption) (a b : String),
      (NewOptions (opts ++ [WithSecret a, WithSecret b])).Secret = b ∧
      (NewOptions (opts ++ [WithKeyLookUp a, WithKeyLookUp b])).KeyLookup = b) := by
  refine ⟨?_, ⟨fun _ _ => rfl, fun _ _ => rfl, fun _ _ => rfl, fun _ _ => rfl, fun _ _ => rfl,
    fun _ _ => rfl⟩, ?_, ?_, ⟨rfl, rfl, by decide⟩, ?_⟩
  · intro opts op
    exact Options.Apply_append _ opts op
  · intro α proj opts op later h
    unfold NewOptions
    rw [Options.Apply_append_list, Options.Apply_frame proj later h, Options.Apply_append]
  · intro α proj opts h
    exact Options.Apply_frame proj opts h _
  · intro opts a b
    unfold NewOptions
    constructor
    · rw [show opts ++ [WithSecret a, WithSecret b] = (opts ++ [WithSecret a]) ++ [WithSecret b]
        by simp, Options.Apply_append]
      rfl
    · rw [show opts ++ [WithKeyLookUp a, WithKeyLookUp b]
        = (opts ++ [WithKeyLookUp a]) ++ [WithKeyLookUp b] by simp, Options.Apply_append]
      rfl

/-! ## The salt generator: lemmas -/

theorem randStrLoop_mem (fuel : Nat) :
    ∀ (src : RandSource) (i : Int) (cache remain : Nat) (sb out : List Char)
      (src1 : RandSource),
      randStrLoop fuel src i cache remain sb = some (out, src1) →
      (∀ ch ∈ sb, ch ∈ letters) → ∀ ch ∈ out, ch ∈ letters := by
  induction fuel with
  | zero =>
    intro src i cache remain sb out src1 h hsb
    rw [randStrLoop] at h
    split at h
    · cases h
    · simp only [Option.some.injEq, Prod.mk.injEq] at h
      obtain ⟨rfl, -⟩ := h
      exact hsb
  | succ n ih =>
    intro src i cache remain sb out src1 h hsb
    rw [randStrLoop] at h
    split at h
    · simp only at h
      have step : ∀ (s : RandSource) (k r : Nat),
          (if hx : k &&& letterIdMask < letters.length then
              randStrLoop n s (i - 1) (k >>> letterIdBits) (r - 1)
                (sb ++ [letters[k &&& letterIdMask]])
            else randStrLoop n s i (k >>> letterIdBits) (r - 1) sb) = some (out, src1) →
          ∀ ch ∈ out, ch ∈ letters := by
        intro s k r hk
        split at hk
        · refine ih _ _ _ _ _ _ _ hk ?_
          intro ch hch
          rw [List.mem_append, List.mem_singleton] at hch
          rcases hch with h1 | h1
          · exact hsb ch h1
          · rw [h1]
            exact List.getElem_mem _
        · exact ih _ _ _ _ _ _ _ hk hsb
      by_cases hr : remain = 0
      · simp only [hr, if_true] at h
        exact step _ _ _ h
      · simp only [hr, if_false] at h
        exact step _ _ _ h
    · simp only [Option.some.injEq, Prod.mk.injEq] at h
      obtain ⟨rfl, -⟩ := h
      exact hsb

/-- The letters written are at most the chunks left in the cached draw plus
ten for every further draw. -/
theorem randStrLoop_draws (fuel : Nat) :
    ∀ (src : RandSource) (i : Int) (cache remain : Nat) (sb out : List Char)
      (src1 : RandSource),
      randStrLoop fuel src i cache remain sb = some (out, src1) →
      src.pos ≤ src1.pos ∧ out.length + 10 * src.pos ≤ sb.length + remain + 10 * src1.pos := by
  induction fuel with
  | zero =>
    intro src i cache remain sb out src1 h
    rw [randStrLoop] at h
    split at h
    · cases h
    · simp only [Option.some.injEq, Prod.mk.injEq] at h
      obtain ⟨rfl, rfl⟩ := h
      omega
  | succ n ih =>
    intro src i cache remain sb out src1 h
    rw [randStrLoop] at h
    split at h
    · simp only at h
      have step : ∀ (s : RandSource) (k r : Nat),
          (if hx : k &&& letterIdMask < letters.length then
              randStrLoop n s (i - 1) (k >>> letterIdBits) (r - 1)
                (sb ++ [letters[k &&& letterIdMask]])
            else randStrLoop n s i (k >>> letterIdBits) (r - 1) sb) = some (out, src1) →
          s.pos ≤ src1.pos ∧ out.length + 10 * s.pos ≤ sb.length + 1 + (r - 1) + 10 * src1.pos := by
        intro s k r hk
        split at hk
        · have := ih _ _ _ _ _ _ _ hk
          simp only [List.length_append, List.length_singleton] at this
          omega
        · have := ih _ _ _ _ _ _ _ hk
          omega
      by_cases hr : remain = 0
      · simp only [hr, if_true] at h
        have := step _ _ _ h
        have hp : src.Int63.2.pos = src.pos + 1 := rfl
        have hm : letterIdMax = 10 := rfl
        omega
      · simp only [hr, if_false] at h
        have := step _ _ _ h
        omega
    · simp only [Option.some.injEq, Prod.mk.injEq] at h
      obtain ⟨rfl, rfl⟩ := h
      omega

theorem randStr_mem (fuel n : Nat) (src src1 : RandSource) (s : String)
    (h : randStr fuel n src = some (s, src1)) : ∀ ch ∈ s.data, ch ∈ letters := by
  unfold randStr at h
  split at h
  · cases h
  · rename_i sb src2 hloop
    simp only [Option.some.injEq, Prod.mk.injEq] at h
    obtain ⟨rfl, -⟩ := h
    exact randStrLoop_mem _ src.Int63.2 _ _ _ _ _ _ hloop (by simp)

theorem randStr_draws (fuel n : Nat) (src src1 : RandSource) (s : String)
    (h : randStr fuel n src = some (s, src1)) :
    src.pos < src1.pos ∧ s.length ≤ 10 * (src1.pos - src.pos) := by
  unfold randStr at h
  split at h
  · cases h
  · rename_i sb src2 hloop
    simp only [Option.some.injEq, Prod.mk.injEq] at h
    obtain ⟨rfl, rfl⟩ := h
    have := randStrLoop_draws _ src.Int63.2 _ _ _ _ _ _ hloop
    have hp : src.Int63.2.pos = src.pos + 1 := rfl
    have hm : letterIdMax = 10 := rfl
    have hl : (String.mk sb).length = sb.length := rfl
    simp only [List.length_nil] at this
    omega

theorem letters_alphanumeric : ∀ ch ∈ letters, ch.isAlphanum = true ∧ ch ≠ '-' := by
  decide

/-- The result of `randStr` from the string and the number of draws it gives. -/
theorem randStr_eq_of_observed (fuel n k : Nat) (src : RandSource) (s : String)
    (h : (randStr fuel n src).map (fun r => (r.1, r.2.pos)) = some (s, k)) :
    randStr fuel n src = some (s, { stream := src.stream, pos := k }) := by
  cases hr : randStr fuel n src with
  | none => rw [hr] at h; cases h
  | some r =>
    obtain ⟨s0, src1⟩ := r
    have hs := randStr_stream _ _ _ _ _ hr
    rw [hr] at h
    simp only [Option.map_some', Option.some.injEq, Prod.mk.injEq] at h
    obtain ⟨rfl, hpos⟩ := h
    obtain ⟨stream, pos⟩ := src1
    simp only at hs hpos
    subst hs hpos
    rfl

/-- On `discardSource` the chunk 63 that starts the draw is dropped. -/
theorem randStr_discardSource :
    randStr 20 3 discardSource = some ("aaa", { stream := discardSource.stream, pos := 1 }) :=
  randStr_eq_of_observed 20 3 1 discardSource "aaa" (by decide!)

/-- What `GetToken` leaves when it has to create the salt: the salt `randStr`
drew, saved in the session. -/
theorem GetToken_creates (fuel : Nat) (c c1 : RequestContext) (src src1 : RandSource)
    (t : String) (hcache : c.Get csrfToken = none)
    (hsession : ∀ v, c.session.Get csrfSalt ≠ some (.str v))
    (hget : GetToken fuel c src = .ok (t, c1, src1)) :
    ∃ salt, randStr fuel 16 src = some (salt, src1) ∧
      c1.session = (c.session.Set csrfSalt (.str salt)).Save := by
  unfold GetToken at hget
  split at hget
  · cases hget
  · cases hget
  · simp only [hcache] at hget
    split at hget
    · cases hget
    · rename_i salt src2 hr
      simp only [Result.ok.injEq, Prod.mk.injEq] at hget
      obtain ⟨-, rfl, rfl⟩ := hget
      exact ⟨salt, hr, rfl⟩

/-! ## The salt generator: claims -/

/-- C22. Salt generator output: whenever the loop of `randStr` finishes on
the random source, `randStr n` returns a string of exactly `n` characters,
each one of the 62 letters and digits of `letters`, and it has made at least
one draw for every ten characters; so the salt `GetToken` creates for a
session without one, and saves in it, has exactly 16 alphanumeric
characters, is not empty and holds no `-`. -/
theorem randStr_output (fuel n : Nat) (src src1 : RandSource) (s : String)
    (h : randStr fuel n src = some (s, src1)) :
    s.length = n ∧ (∀ ch ∈ s.data, ch ∈ letters) ∧
    (letters.length = 62 ∧ ∀ ch ∈ letters, ch.isAlphanum = true ∧ ch ≠ '-') ∧
    (letterIdMax = 10 ∧ s.length ≤ letterIdMax * (src1.pos - src.pos)) ∧
    (∀ (c c1 : RequestContext) (src0 src2 : RandSource) (t : String),
      c.Get csrfToken = none → (∀ v, c.session.Get csrfSalt ≠ some (.str v)) →
      GetToken fuel c src0 = .ok (t, c1, src2) →
      ∃ salt, c1.session.Get csrfSalt = some (.str salt) ∧
        c1.session.saves = c.session.saves + 1 ∧ salt.length = 16 ∧
        (∀ ch ∈ salt.data, ch ∈ letters ∧ ch.isAlphanum = true) ∧
        salt ≠ "" ∧ '-' ∉ salt.data) := by
  refine ⟨randStr_length _ _ _ _ _ h, randStr_mem _ _ _ _ _ h,
    ⟨by decide, letters_alphanumeric⟩, ⟨rfl, (randStr_draws _ _ _ _ _ h).2⟩, ?_⟩
  intro c c1 src0 src2 t hcache hsession hget
  obtain ⟨salt, hr, hc1⟩ := GetToken_creates fuel c c1 src0 src2 t hcache hsession hget
  have hlen := randStr_length _ _ _ _ _ hr
  have hmem := randStr_mem _ _ _ _ _ hr
  refine ⟨salt, ?_, ?_, hlen, fun ch hch => ⟨hmem ch hch, (letters_alphanumeric ch (hmem ch hch)).1⟩,
    ?_, ?_⟩
  · rw [hc1]
    simp [Session.Get, Session.Save, Session.Set, Store.get_set_self]
  · rw [hc1]
    rfl
  · apply ne_empty_of_length_pos
    rw [hlen]
    decide
  · intro hmin
    exact (letters_alphanumeric _ (hmem _ hmin)).2 rfl

/-- The salt of 16 characters drawn from `exampleSource` in two draws, and
three characters drawn from `discardSource`, whose first chunk is dropped. -/
theorem randStr_output_witness :
    randStr 100 16 exampleSource
      = some ("V38QjEwrJeMv0ib8", { stream := exampleSource.stream, pos := 2 }) ∧
    ("V38QjEwrJeMv0ib8".length = 16 ∧ ∀ ch ∈ "V38QjEwrJeMv0ib8".data, ch ∈ letters) ∧
    randStr 20 3 discardSource = some ("aaa", { stream := discardSource.stream, pos := 1 }) ∧
    ("aaa".length = 3 ∧ ∀ ch ∈ "aaa".data, ch ∈ letters) :=
  have h1 := randStr_output 100 16 exampleSource { stream := exampleSource.stream, pos := 2 }
    "V38QjEwrJeMv0ib8" randStr_exampleSource
  have h2 := randStr_output 20 3 discardSource { stream := discardSource.stream, pos := 1 }
    "aaa" randStr_discardSource
  ⟨randStr_exampleSource, ⟨h1.1, h1.2.1⟩, randStr_discardSource, ⟨h2.1, h2.2.1⟩⟩

/-! ## Implicit behaviour: claims -/

/-- C23. The lookup string is validated even when it is not used: for a
config that supplies an extractor together with a non-empty lookup string
that does not split on `:` into exactly two parts, `configDefault` panics
with the KeyLookup error and `New` returns no handler, although with any
lookup string that does split the supplied extractor is the one kept. -/
theorem unused_lookup_still_validated (cfg : Config) (rest : List Config)
    (extract : CsrfExtractorHandler)
    (hextractor : cfg.Extractor = some extract)
    (hne : cfg.KeyLookup ≠ "")
    (hsplit : (Split cfg.KeyLookup ':').length ≠ 2) :
    configDefault (cfg :: rest) = .panic (.value (some errKeyLookup)) ∧
    New (cfg :: rest) = .panic (.value (some errKeyLookup)) ∧
    (∀ source key : String, ':' ∉ source.data → ':' ∉ key.data →
      ∃ r, configDefault ({ cfg with KeyLookup := source ++ ":" ++ key } :: rest) = .ok r ∧
        r.Extractor = some extract) := by
  have hl : lookupOf cfg = cfg.KeyLookup := by simp [lookupOf, hne]
  have hp := configDefault_of_not_split cfg rest (by rw [hl]; exact hsplit)
  refine ⟨hp, (New_panics_iff _ _).mpr hp, ?_⟩
  intro source key hsource hkey
  have hl2 : lookupOf { cfg with KeyLookup := source ++ ":" ++ key } = source ++ ":" ++ key := by
    simp [lookupOf, lookup_ne_empty]
  have hs : Split (lookupOf { cfg with KeyLookup := source ++ ":" ++ key }) ':'
      = [source, key] := by
    rw [hl2]
    exact Split_lookup source key hsource hkey
  refine ⟨_, configDefault_of_split _ rest source key hs, ?_⟩
  simp [hextractor, setDefaults]

/-- The config of `TestExtractor` with the lookup string "herder". -/
theorem unused_lookup_still_validated_witness :
    configDefault [{ overrideConfig with KeyLookup := "herder" }]
      = .panic (.value (some errKeyLookup)) ∧
    New [{ overrideConfig with KeyLookup := "herder" }]
      = .panic (.value (some errKeyLookup)) :=
  have h := unused_lookup_still_validated { overrideConfig with KeyLookup := "herder" } []
    (fun c => (c.FormValue "token getter", none)) rfl (by decide) (by decide)
  ⟨h.1, h.2.1⟩

/-- C24. Empty-salt sessions are issued tokens that never validate: when the
session holds the empty string as its salt, `GetToken` draws no new salt and
returns `tokenize secret ""`, leaving the session unchanged; and the handler
rejects every request on that session that is not exempt, whatever token it
presents, that token included, without calling the extractor. -/
theorem empty_salt_round_trip_fails (secret : String) (fuel : Nat) (c : RequestContext)
    (src : RandSource)
    (hsecret : c.Get csrfSecret = some (.str secret))
    (hcache : tokenCacheOk secret c = true)
    (hsalt : c.session.Get csrfSalt = some (.str "")) :
    (∃ c1 : RequestContext, GetToken fuel c src = .ok (tokenize secret "", c1, src) ∧
      c1.session = c.session) ∧
    (∀ (cfg : Config) (next : HandlerFunc) (c2 : RequestContext),
      c2.session = c.session → bypassed cfg c2 = false →
      isIgnored (cfg.IgnoreMethods.getD []) c2.Method = false →
      (handler cfg next c2).errorFuncCount = 1 ∧ (handler cfg next c2).nextCount = 0 ∧
      Call.extractor ∉ (handler cfg next c2).calls) := by
  refine ⟨GetToken_of_salt secret "" fuel c src hsecret hcache hsalt, ?_⟩
  intro cfg next c2 hsess hb hm
  obtain ⟨b1, b2, b3, -⟩ := bypassLog_counts cfg
  have hs : ∀ salt, c2.session.Get csrfSalt = some (.str salt) → salt = "" := by
    intro salt hg
    rw [hsess, hsalt] at hg
    cases hg
    rfl
  rw [handler_of_not_bypassed cfg next c2 hb, validate_missing_salt cfg next c2 _ hm hs]
  simp [Run.nextCount, Run.errorFuncCount, b1, b2, b3, List.countP_cons]

/-- The token issued on `emptySaltRequest`, presented again in the header of
a POST request on the same session. -/
theorem empty_salt_round_trip_fails_witness :
    (∃ c1 : RequestContext,
      GetToken 0 emptySaltRequest exampleSource = .ok (tokenize "secret" "", c1, exampleSource) ∧
      c1.session = emptySaltRequest.session) ∧
    (handler resolvedConfig Result.ok
        { postRequest with
          Header := fun _ => tokenize "secret" ""
          session := emptySaltRequest.session }).errorFuncCount = 1 ∧
    (handler resolvedConfig Result.ok
        { postRequest with
          Header := fun _ => tokenize "secret" ""
          session := emptySaltRequest.session }).nextCount = 0 :=
  have h := empty_salt_round_trip_fails "secret" 0 emptySaltRequest exampleSource
    (by decide) (by decide) (by decide)
  have h2 := h.2 resolvedConfig Result.ok
    { postRequest with
      Header := fun _ => tokenize "secret" ""
      session := emptySaltRequest.session } rfl (by decide) (by decide)
  ⟨h.1, h2.1, h2.2.1⟩

/-! ## Injectivity of the encodings: lemmas -/

theorem char_eq_of_toNat_eq (c1 c2 : Char) (h : c1.toNat = c2.toNat) : c1 = c2 :=
  Char.ext (UInt32.ext h)

theorem char_toNat_lt (c : Char) : c.toNat < 1114112 := by
  have := c.valid
  simp only [UInt32.isValidChar, Nat.isValidChar] at this
  simp only [Char.toNat]
  omega

/-- The UTF-8 encoding in arithmetic. -/
theorem utf8EncodeChar_eq (c : Char) :
    utf8EncodeChar c =
      if c.toNat < 128 then [c.toNat]
      else if c.toNat < 2048 then [192 + c.toNat / 64, 128 + c.toNat % 64]
      else if c.toNat < 65536 then
        [224 + c.toNat / 4096, 128 + c.toNat / 64 % 64, 128 + c.toNat % 64]
      else
        [240 + c.toNat / 262144, 128 + c.toNat / 4096 % 64, 128 + c.toNat / 64 % 64,
          128 + c.toNat % 64] := by
  have hv := char_toNat_lt c
  have o128 : ∀ a, a < 64 → 128 ||| a = 128 + a := by decide
  have o192 : ∀ a, a < 32 → 192 ||| a = 192 + a := by decide
  have o224 : ∀ a, a < 16 → 224 ||| a = 224 + a := by decide
  have o240 : ∀ a, a < 8 → 240 ||| a = 240 + a := by decide
  have hand : ∀ v : Nat, v &&& 63 = v % 64 := fun v => Nat.and_pow_two_sub_one_eq_mod v 6
  have s6 : ∀ v : Nat, v >>> 6 = v / 64 := fun v => Nat.shiftRight_eq_div_pow v 6
  have s12 : ∀ v : Nat, v >>> 12 = v / 4096 := fun v => Nat.shiftRight_eq_div_pow v 12
  have s18 : ∀ v : Nat, v >>> 18 = v / 262144 := fun v => Nat.shiftRight_eq_div_pow v 18
  simp only [utf8EncodeChar, hand, s6, s12, s18]
  split
  · rfl
  · split
    · rw [o192 _ (by omega), o128 _ (by omega)]
    · split
      · rw [o224 _ (by omega), o128 (c.toNat / 64 % 64) (by omega), o128 (c.toNat % 64) (by omega)]
      · rw [o240 _ (by omega), o128 (c.toNat / 4096 % 64) (by omega),
          o128 (c.toNat / 64 % 64) (by omega), o128 (c.toNat % 64) (by omega)]

/-- The UTF-8 encoding is a prefix code: the first character of a byte
string and the bytes that follow it are determined. -/
theorem utf8EncodeChar_append_inj (c1 c2 : Char) (r1 r2 : List Nat)
    (h : utf8EncodeChar c1 ++ r1 = utf8EncodeChar c2 ++ r2) : c1 = c2 ∧ r1 = r2 := by
  have hv1 := char_toNat_lt c1
  have hv2 := char_toNat_lt c2
  rw [utf8EncodeChar_eq, utf8EncodeChar_eq] at h
  have key : c1.toNat = c2.toNat ∧ r1 = r2 := by
    split at h <;> (try split at h) <;> (try split at h) <;> (try split at h) <;>
      (try split at h) <;> (try split at h) <;>
      simp only [List.cons_append, List.nil_append, List.cons.injEq] at h <;>
      first
      | (exfalso; omega)
      | exact ⟨by omega, by simp only [h]⟩
  exact ⟨char_eq_of_toNat_eq c1 c2 key.1, key.2⟩

theorem utf8EncodeChar_ne_nil (c : Char) : utf8EncodeChar c ≠ [] := by
  rw [utf8EncodeChar_eq]
  split <;> (try split) <;> (try split) <;> simp

theorem flatMap_utf8_injective (l1 : List Char) :
    ∀ l2 : List Char, l1.flatMap utf8EncodeChar = l2.flatMap utf8EncodeChar → l1 = l2 := by
  induction l1 with
  | nil =>
    intro l2 h
    cases l2 with
    | nil => rfl
    | cons c cs =>
      simp only [List.flatMap_nil, List.flatMap_cons] at h
      have hn := utf8EncodeChar_ne_nil c
      cases hc : utf8EncodeChar c with
      | nil => exact absurd hc hn
      | cons b bs => rw [hc] at h; cases h
  | cons c1 cs1 ih =>
    intro l2 h
    cases l2 with
    | nil =>
      simp only [List.flatMap_nil, List.flatMap_cons] at h
      have hn := utf8EncodeChar_ne_nil c1
      cases hc : utf8EncodeChar c1 with
      | nil => exact absurd hc hn
      | cons b bs => rw [hc] at h; cases h
    | cons c2 cs2 =>
      simp only [List.flatMap_cons] at h
      obtain ⟨hc, hr⟩ := utf8EncodeChar_append_inj c1 c2 _ _ h
      rw [hc, ih cs2 hr]

/-- Different strings have different bytes. -/
theorem stringBytes_injective (s1 s2 : String) (h : stringBytes s1 = stringBytes s2) :
    s1 = s2 := by
  cases s1 with
  | mk d1 =>
    cases s2 with
    | mk d2 =>
      have := flatMap_utf8_injective d1 d2 h
      rw [this]

theorem encodeURL_getD_inj :
    ∀ a, a < 64 → ∀ b, b < 64 → encodeURL.getD a 'A' = encodeURL.getD b 'A' → a = b := by
  decide!

theorem encodeChar_inj (i j : Nat) (h : encodeChar i = encodeChar j) : i % 64 = j % 64 :=
  encodeURL_getD_inj _ (Nat.mod_lt _ (by decide)) _ (Nat.mod_lt _ (by decide)) h

/-- The 24-bit group of three bytes, in arithmetic. -/
theorem group3_eq (b0 b1 b2 : Nat) (h1 : b1 < 256) (h2 : b2 < 256) :
    (b0 <<< 16) ||| (b1 <<< 8) ||| b2 = 65536 * b0 + 256 * b1 + b2 := by
  have e1 : (b0 <<< 16) ||| (b1 <<< 8) = 2 ^ 16 * b0 + b1 * 2 ^ 8 := by
    rw [Nat.shiftLeft_eq, Nat.shiftLeft_eq, Nat.mul_comm b0 (2 ^ 16)]
    exact (Nat.mul_add_lt_is_or (by omega) b0).symm
  have e2 : 2 ^ 16 * b0 + b1 * 2 ^ 8 = 2 ^ 8 * (256 * b0 + b1) := by omega
  rw [e1, e2, ← Nat.mul_add_lt_is_or (by omega : b2 < 2 ^ 8)]
  omega

theorem group2_eq (b0 b1 : Nat) (h1 : b1 < 256) :
    (b0 <<< 16) ||| (b1 <<< 8) = 65536 * b0 + 256 * b1 := by
  rw [Nat.shiftLeft_eq, Nat.shiftLeft_eq, Nat.mul_comm b0 (2 ^ 16),
    ← Nat.mul_add_lt_is_or (by omega : b1 * 2 ^ 8 < 2 ^ 16)]
  omega

theorem group1_eq (b0 : Nat) : b0 <<< 16 = 65536 * b0 := by
  rw [Nat.shiftLeft_eq]
  omega

/-- The padded base64 encoding is injective on byte strings of one length. -/
theorem EncodeToString_injective (l1 : List Nat) :
    ∀ l2 : List Nat, (∀ b ∈ l1, b < 256) → (∀ b ∈ l2, b < 256) → l1.length = l2.length →
      EncodeToString l1 = EncodeToString l2 → l1 = l2 := by
  have s6 : ∀ v : Nat, v >>> 6 = v / 64 := fun v => Nat.shiftRight_eq_div_pow v 6
  have s12 : ∀ v : Nat, v >>> 12 = v / 4096 := fun v => Nat.shiftRight_eq_div_pow v 12
  have s18 : ∀ v : Nat, v >>> 18 = v / 262144 := fun v => Nat.shiftRight_eq_div_pow v 18
  induction l1 using EncodeToString.induct with
  | case1 =>
    intro l2 _ _ hlen _
    cases l2 with
    | nil => rfl
    | cons b bs => simp at hlen
  | case2 b0 =>
    intro l2 h1 h2 hlen h
    match l2, hlen with
    | [c0], _ =>
      have hb := h1 b0 (by simp)
      have hc := h2 c0 (by simp)
      simp only [EncodeToString, group1_eq, s12, s18, List.cons.injEq, and_true] at h
      have e1 := encodeChar_inj _ _ h.1
      have e2 := encodeChar_inj _ _ h.2
      have : b0 = c0 := by omega
      rw [this]
  | case3 b0 b1 =>
    intro l2 h1 h2 hlen h
    match l2, hlen with
    | [c0, c1], _ =>
      have hb0 := h1 b0 (by simp)
      have hb1 := h1 b1 (by simp)
      have hc0 := h2 c0 (by simp)
      have hc1 := h2 c1 (by simp)
      simp only [EncodeToString, group2_eq _ _ hb1, group2_eq _ _ hc1, s6, s12, s18,
        List.cons.injEq, and_true] at h
      have e1 := encodeChar_inj _ _ h.1
      have e2 := encodeChar_inj _ _ h.2.1
      have e3 := encodeChar_inj _ _ h.2.2
      have : b0 = c0 ∧ b1 = c1 := by omega
      rw [this.1, this.2]
  | case4 b0 b1 b2 rest ih =>
    intro l2 h1 h2 hlen h
    match l2, hlen with
    | c0 :: c1 :: c2 :: rest2, hlen =>
      have hb0 := h1 b0 (by simp)
      have hb1 := h1 b1 (by simp)
      have hb2 := h1 b2 (by simp)
      have hc0 := h2 c0 (by simp)
      have hc1 := h2 c1 (by simp)
      have hc2 := h2 c2 (by simp)
      simp only [EncodeToString, group3_eq _ _ _ hb1 hb2, group3_eq _ _ _ hc1 hc2, s6, s12, s18,
        List.cons.injEq] at h
      have e1 := encodeChar_inj _ _ h.1
      have e2 := encodeChar_inj _ _ h.2.1
      have e3 := encodeChar_inj _ _ h.2.2.1
      have e4 := encodeChar_inj _ _ h.2.2.2.1
      have hrest := ih rest2 (fun b hb => h1 b (by simp [hb])) (fun b hb => h2 b (by simp [hb]))
        (by simpa using hlen) h.2.2.2.2
      have : b0 = c0 ∧ b1 = c1 ∧ b2 = c2 := by omega
      rw [this.1, this.2.1, this.2.2, hrest]

theorem Sha256.sum_lt (msg : List Nat) : ∀ b ∈ Sha256.sum msg, b < 256 := by
  have hbe : ∀ x b, b ∈ Sha256.be32 x → b < 256 := by
    intro x b hb
    simp only [Sha256.be32, List.mem_cons, List.mem_singleton, List.not_mem_nil, or_false] at hb
    rcases hb with h | h | h | h <;> (rw [h]; exact Nat.mod_lt _ (by decide))
  intro b hb
  simp only [Sha256.sum, Sha256.digest, List.mem_append] at hb
  rcases hb with ((((((h | h) | h) | h) | h) | h) | h) | h <;> exact hbe _ b h

/-- Equal tokens come from equal digests. -/
theorem digest_eq_of_tokenize_eq (secret salt secret2 salt2 : String)
    (h : tokenize secret salt = tokenize secret2 salt2) :
    Sha256.sum (stringBytes (salt ++ "-" ++ secret))
      = Sha256.sum (stringBytes (salt2 ++ "-" ++ secret2)) := by
  have hd : EncodeToString (Sha256.sum (stringBytes (salt ++ "-" ++ secret)))
      = EncodeToString (Sha256.sum (stringBytes (salt2 ++ "-" ++ secret2))) := by
    have := congrArg String.data h
    exact this
  exact EncodeToString_injective _ _ (Sha256.sum_lt _) (Sha256.sum_lt _)
    (by rw [Sha256.sum_length, Sha256.sum_length]) hd

theorem string_append_right_cancel (a b c : String) (h : a ++ c = b ++ c) : a = b := by
  have hd := congrArg String.data h
  simp only [String.data_append] at hd
  exact String.ext (List.append_cancel_right hd)

theorem string_append_left_cancel (a b c : String) (h : a ++ b = a ++ c) : b = c := by
  have hd := congrArg String.data h
  simp only [String.data_append] at hd
  exact String.ext (List.append_cancel_left hd)

/-- Two hash inputs with hyphen-free salts are equal only for equal salts
and equal secrets. -/
theorem hash_input_inj (s1 s2 k1 k2 : String) (h1 : '-' ∉ s1.data) (h2 : '-' ∉ s2.data)
    (h : s1 ++ "-" ++ k1 = s2 ++ "-" ++ k2) : s1 = s2 ∧ k1 = k2 := by
  have hd := congrArg String.data h
  simp only [String.data_append] at hd
  have hd2 : s1.data ++ '-' :: k1.data = s2.data ++ '-' :: k2.data := by
    simpa using hd
  have hsp := congrArg (splitChars '-') hd2
  rw [splitChars_append_sep _ _ _ h1, splitChars_append_sep _ _ _ h2] at hsp
  have hs : s1.data = s2.data := (List.cons.inj hsp).1
  rw [hs] at hd2
  have hk : k1.data = k2.data := by
    have := List.append_cancel_left hd2
    exact (List.cons.inj this).2
  exact ⟨String.ext hs, String.ext hk⟩

/-! ## Sensitivity and ambiguity of the hash input: claims -/

/-- C21. Sensitivity: for a fixed secret, different salts give different
hash inputs `salt ++ "-" ++ secret`, and for a fixed salt, different secrets
give different hash inputs; different inputs have different bytes; the base64
encoding is injective on 32-byte digests; so two such tokens are equal only
if SHA-256 gives one digest for the two different byte strings. -/
theorem token_sensitivity (secret secret2 salt salt2 : String) :
    (salt ≠ salt2 → salt ++ "-" ++ secret ≠ salt2 ++ "-" ++ secret) ∧
    (secret ≠ secret2 → salt ++ "-" ++ secret ≠ salt ++ "-" ++ secret2) ∧
    (∀ x y : String, x ≠ y → stringBytes x ≠ stringBytes y) ∧
    (∀ d1 d2 : List Nat, d1.length = 32 → d2.length = 32 →
      (∀ b ∈ d1, b < 256) → (∀ b ∈ d2, b < 256) →
      EncodeToString d1 = EncodeToString d2 → d1 = d2) ∧
    (salt ≠ salt2 → tokenize secret salt = tokenize secret salt2 →
      stringBytes (salt ++ "-" ++ secret) ≠ stringBytes (salt2 ++ "-" ++ secret) ∧
      Sha256.sum (stringBytes (salt ++ "-" ++ secret))
        = Sha256.sum (stringBytes (salt2 ++ "-" ++ secret))) ∧
    (secret ≠ secret2 → tokenize secret salt = tokenize secret2 salt →
      stringBytes (salt ++ "-" ++ secret) ≠ stringBytes (salt ++ "-" ++ secret2) ∧
      Sha256.sum (stringBytes (salt ++ "-" ++ secret))
        = Sha256.sum (stringBytes (salt ++ "-" ++ secret2))) := by
  have hsalt : salt ≠ salt2 → salt ++ "-" ++ secret ≠ salt2 ++ "-" ++ secret := by
    intro hne h
    apply hne
    have h2 : salt ++ ("-" ++ secret) = salt2 ++ ("-" ++ secret) := by
      simpa [String.append_assoc] using h
    exact string_append_right_cancel _ _ _ h2
  have hsecret : secret ≠ secret2 → salt ++ "-" ++ secret ≠ salt ++ "-" ++ secret2 := by
    intro hne h
    exact hne (string_append_left_cancel _ _ _ h)
  have hbytes : ∀ x y : String, x ≠ y → stringBytes x ≠ stringBytes y :=
    fun x y hne h => hne (stringBytes_injective x y h)
  refine ⟨hsalt, hsecret, hbytes, ?_, ?_, ?_⟩
  · intro d1 d2 hl1 hl2 hb1 hb2 h
    exact EncodeToString_injective d1 d2 hb1 hb2 (hl1.trans hl2.symm) h
  · intro hne h
    exact ⟨hbytes _ _ (hsalt hne), digest_eq_of_tokenize_eq _ _ _ _ h⟩
  · intro hne h
    exact ⟨hbytes _ _ (hsecret hne), digest_eq_of_tokenize_eq _ _ _ _ h⟩

/-- C25. The hash input is unambiguous only for hyphen-free salts: for salts
that hold no `-`, equal hash inputs `salt ++ "-" ++ secret` have equal salts
and equal secrets, and no salt `randStr` returns holds a `-`; without that
restriction two different pairs can give one hash input: the secret "c" with
the salt "a-b" and the secret "b-c" with the salt "a" have the identical
token. -/
theorem hash_input_unambiguous (s1 s2 k1 k2 : String)
    (h1 : '-' ∉ s1.data) (h2 : '-' ∉ s2.data) :
    (s1 ++ "-" ++ k1 = s2 ++ "-" ++ k2 → s1 = s2 ∧ k1 = k2) ∧
    (∀ (fuel n : Nat) (src src1 : RandSource) (s : String),
      randStr fuel n src = some (s, src1) → '-' ∉ s.data) ∧
    ((("c" : String), ("a-b" : String)) ≠ ("b-c", "a") ∧
      ("a-b" : String) ++ "-" ++ "c" = "a" ++ "-" ++ "b-c" ∧
      tokenize "c" "a-b" = tokenize "b-c" "a") := by
  refine ⟨hash_input_inj s1 s2 k1 k2 h1 h2, ?_, by decide, by decide, ?_⟩
  · intro fuel n src src1 s h hmem
    exact (letters_alphanumeric _ (randStr_mem _ _ _ _ _ h _ hmem)).2 rfl
  · have hin : ("a-b" : String) ++ "-" ++ "c" = "a" ++ "-" ++ "b-c" := by decide
    unfold tokenize
    rw [hin]

/-- The salts "abc" and "abd", which hold no hyphen. -/
theorem hash_input_unambiguous_witness :
    (("abc" : String) ++ "-" ++ "k1" = "abd" ++ "-" ++ "k2" → ("abc" : String) = "abd" ∧
      ("k1" : String) = "k2") ∧
    tokenize "c" "a-b" = tokenize "b-c" "a" :=
  have h := hash_input_unambiguous "abc" "abd" "k1" "k2" (by decide) (by decide)
  ⟨h.1, h.2.2.2.2⟩

end Csrf
